import Mathlib

/-!
Shallow embedding of the `pedimiento_cumplimiento` Odoo module: the customs
clearance ("pedimento") number validator, the create-or-reuse registry on
purchase-order confirmation, the receipt (picking) attach/detach hooks, the
reversal orchestrator and the bulk validation coordinator.

External collaborators (the inventory engine's return wizard, the costing
engine's `button_validate`, the optional `sh_landed_cost_cancel` capability)
are modelled at their interface, as the spec prescribes.  Raising a
`ValidationError` in Odoo aborts the surrounding database transaction, so in
this embedding an operation that fails returns `Except.error e` and produces
no successor world: an error leaves every record exactly as it was.
-/

namespace Pedimiento

/-- `[0-9]` of the regex: an ASCII decimal digit. -/
def isDig (c : Char) : Bool := '0' ≤ c && c ≤ '9'

/-- Consume exactly `n` digit characters, returning the rest of the input. -/
def matchDigits : Nat → List Char → Option (List Char)
  | 0, cs => some cs
  | _ + 1, [] => none
  | n + 1, c :: cs => if isDig c then matchDigits n cs else none

/-- Consume exactly `n` space characters, returning the rest of the input. -/
def matchSpaces : Nat → List Char → Option (List Char)
  | 0, cs => some cs
  | _ + 1, [] => none
  | n + 1, c :: cs => if c = ' ' then matchSpaces n cs else none

/-- `CUSTOM_NUMBERS_PATTERN.match`: Python's `re.match` anchors the pattern
`[0-9]{2}  [0-9]{2}  [0-9]{4}  [0-9]{7}` at the START of the string only;
anything may follow the matched prefix. -/
def patternMatch (cs : List Char) : Bool :=
  (do
    let cs ← matchDigits 2 cs
    let cs ← matchSpaces 2 cs
    let cs ← matchDigits 2 cs
    let cs ← matchSpaces 2 cs
    let cs ← matchDigits 4 cs
    let cs ← matchSpaces 2 cs
    let cs ← matchDigits 7 cs
    pure cs).isSome

/-- Whitespace as recognised by Python's `str.strip` (ASCII part). -/
def pyIsSpace (c : Char) : Bool :=
  c = ' ' || c = '\t' || c = '\n' || c = '\r' || c = '\x0b' || c = '\x0c'

/-- Python's `str.strip()`: drop whitespace from both ends. -/
def pyStrip (cs : List Char) : List Char :=
  ((cs.dropWhile pyIsSpace).reverse.dropWhile pyIsSpace).reverse

/-- `_check_l10n_mx_edi_customs_number` for a single value: an empty (falsy)
value is skipped; otherwise the value is stripped and must match the pattern,
else a format `ValidationError` is raised.  Returns `true` when accepted. -/
def checkCustomsNumber (s : String) : Bool :=
  if s = "" then true
  else patternMatch (pyStrip s.data)

/-- The spec's exact shape, stated independently of the matcher: exactly
two digits, two spaces, two digits, two spaces, four digits, two spaces,
seven digits, and nothing else. -/
def specShape (cs : List Char) : Bool :=
  match cs with
  | [a, b, s1, s2, c, d, s3, s4, e, f, g, h, s5, s6, i, j, k, l, m, n, o] =>
    isDig a && isDig b && s1 = ' ' && s2 = ' ' &&
    isDig c && isDig d && s3 = ' ' && s4 = ' ' &&
    isDig e && isDig f && isDig g && isDig h && s5 = ' ' && s6 = ' ' &&
    isDig i && isDig j && isDig k && isDig l && isDig m && isDig n && isDig o
  | _ => false

theorem matchDigits_eq_some (n : Nat) (cs rest : List Char) :
    matchDigits n cs = some rest ↔
      ∃ ds, cs = ds ++ rest ∧ ds.length = n ∧ ∀ c ∈ ds, isDig c = true := by
  induction n generalizing cs with
  | zero =>
    simp only [matchDigits, Option.some.injEq]
    constructor
    · intro h; exact ⟨[], by simp [h], rfl, by simp⟩
    · rintro ⟨ds, h1, h2, _⟩
      rw [List.length_eq_zero] at h2
      simpa [h2] using h1
  | succ n ih =>
    cases cs with
    | nil =>
      simp only [matchDigits]
      constructor
      · intro h; cases h
      · rintro ⟨ds, h1, h2, _⟩
        have := congrArg List.length h1
        simp [h2] at this
        omega
    | cons c cs =>
      simp only [matchDigits]
      by_cases hc : isDig c = true
      · rw [if_pos hc, ih]
        constructor
        · rintro ⟨ds, h1, h2, h3⟩
          refine ⟨c :: ds, by simp [h1], by simp [h2], ?_⟩
          intro x hx
          rcases List.mem_cons.mp hx with h | h
          · exact h ▸ hc
          · exact h3 x h
        · rintro ⟨ds, h1, h2, h3⟩
          cases ds with
          | nil => simp at h2
          | cons d ds =>
            simp only [List.cons_append, List.cons.injEq] at h1
            refine ⟨ds, h1.2, by simpa using h2, ?_⟩
            intro x hx; exact h3 x (List.mem_cons_of_mem d hx)
      · rw [if_neg hc]
        constructor
        · intro h; cases h
        · rintro ⟨ds, h1, h2, h3⟩
          cases ds with
          | nil => simp at h2
          | cons d ds =>
            simp only [List.cons_append, List.cons.injEq] at h1
            exact absurd (h1.1 ▸ h3 d (List.mem_cons_self d ds)) hc

theorem matchSpaces_eq_some (n : Nat) (cs rest : List Char) :
    matchSpaces n cs = some rest ↔ cs = List.replicate n ' ' ++ rest := by
  induction n generalizing cs with
  | zero => simp [matchSpaces]
  | succ n ih =>
    cases cs with
    | nil =>
      simp only [matchSpaces]
      constructor
      · intro h; cases h
      · intro h
        simpa [List.replicate_succ] using congrArg List.length h
    | cons c cs =>
      simp only [matchSpaces]
      by_cases hc : c = ' '
      · rw [if_pos hc, ih]
        constructor
        · intro h; simp [List.replicate_succ, hc, h]
        · intro h
          simp only [List.replicate_succ, List.cons_append, List.cons.injEq] at h
          exact h.2
      · rw [if_neg hc]
        constructor
        · intro h; cases h
        · intro h
          simp only [List.replicate_succ, List.cons_append, List.cons.injEq] at h
          exact absurd h.1 hc

theorem lengthTwo {α : Type} {l : List α} (h : l.length = 2) :
    ∃ a b, l = [a, b] := by
  cases l with
  | nil => simp at h
  | cons a l =>
  cases l with
  | nil => simp at h
  | cons b l =>
  cases l with
  | nil => exact ⟨a, b, rfl⟩
  | cons c l => simp only [List.length_cons] at h; omega

theorem lengthFour {α : Type} {l : List α} (h : l.length = 4) :
    ∃ a b c d, l = [a, b, c, d] := by
  cases l with
  | nil => simp at h
  | cons a l =>
  cases l with
  | nil => simp at h
  | cons b l =>
  cases l with
  | nil => simp at h
  | cons c l =>
  cases l with
  | nil => simp at h
  | cons d l =>
  cases l with
  | nil => exact ⟨a, b, c, d, rfl⟩
  | cons e l => simp only [List.length_cons] at h; omega

theorem lengthSeven {α : Type} {l : List α} (h : l.length = 7) :
    ∃ a b c d e f g, l = [a, b, c, d, e, f, g] := by
  cases l with
  | nil => simp at h
  | cons a l =>
  cases l with
  | nil => simp at h
  | cons b l =>
  cases l with
  | nil => simp at h
  | cons c l =>
  cases l with
  | nil => simp at h
  | cons d l =>
  cases l with
  | nil => simp at h
  | cons e l =>
  cases l with
  | nil => simp at h
  | cons f l =>
  cases l with
  | nil => simp at h
  | cons g l =>
  cases l with
  | nil => exact ⟨a, b, c, d, e, f, g, rfl⟩
  | cons x l => simp only [List.length_cons] at h; omega

/-- The prefix-anchored matcher succeeds exactly on strings that start with
the full 21-character shape, whatever follows. -/
theorem patternMatch_iff (cs : List Char) :
    patternMatch cs = true ↔ ∃ y z, cs = y ++ z ∧ specShape y = true := by
  constructor
  · intro h
    rw [patternMatch, Option.isSome_iff_exists] at h
    obtain ⟨r, hr⟩ := h
    simp only [Option.pure_def, Option.bind_eq_bind, Option.bind_eq_some] at hr
    obtain ⟨r1, h1, r2, h2, r3, h3, r4, h4, r5, h5, r6, h6, r7, h7, _⟩ := hr
    rw [matchDigits_eq_some] at h1 h3 h5 h7
    rw [matchSpaces_eq_some] at h2 h4 h6
    obtain ⟨ds1, hcs, hl1, hd1⟩ := h1
    obtain ⟨ds2, hr2, hl2, hd2⟩ := h3
    obtain ⟨ds3, hr4, hl3, hd3⟩ := h5
    obtain ⟨ds4, hr6, hl4, hd4⟩ := h7
    obtain ⟨a1, b1, rfl⟩ := lengthTwo hl1
    obtain ⟨a2, b2, rfl⟩ := lengthTwo hl2
    obtain ⟨c1, c2, c3, c4, rfl⟩ := lengthFour hl3
    obtain ⟨e1, e2, e3, e4, e5, e6, e7, rfl⟩ := lengthSeven hl4
    simp only [List.mem_cons, List.not_mem_nil, or_false, forall_eq_or_imp,
      forall_eq] at hd1 hd2 hd3 hd4
    refine ⟨[a1, b1, ' ', ' ', a2, b2, ' ', ' ', c1, c2, c3, c4, ' ', ' ',
      e1, e2, e3, e4, e5, e6, e7], r7, ?_, ?_⟩
    · subst hcs h2 hr2 h4 hr4 h6 hr6
      simp [List.replicate]
    · simp [specShape, hd1.1, hd1.2, hd2.1, hd2.2, hd3.1, hd3.2.1, hd3.2.2.1,
        hd3.2.2.2, hd4.1, hd4.2.1, hd4.2.2.1, hd4.2.2.2.1, hd4.2.2.2.2.1,
        hd4.2.2.2.2.2.1, hd4.2.2.2.2.2.2]
  · rintro ⟨y, z, rfl, hy⟩
    match y, hy with
    | [a1, b1, s1, s2, a2, b2, s3, s4, c1, c2, c3, c4, s5, s6,
       e1, e2, e3, e4, e5, e6, e7], hy => ?_
    simp only [specShape, Bool.and_eq_true, decide_eq_true_eq] at hy
    obtain ⟨⟨⟨⟨⟨⟨⟨⟨⟨⟨⟨⟨⟨⟨⟨⟨⟨⟨⟨⟨hA1, hB1⟩, hS1⟩, hS2⟩, hA2⟩, hB2⟩, hS3⟩,
      hS4⟩, hC1⟩, hC2⟩, hC3⟩, hC4⟩, hS5⟩, hS6⟩, hE1⟩, hE2⟩, hE3⟩, hE4⟩,
      hE5⟩, hE6⟩, hE7⟩ := hy
    subst hS1 hS2 hS3 hS4 hS5 hS6
    simp [patternMatch, matchDigits, matchSpaces, hA1, hB1, hA2, hB2,
      hC1, hC2, hC3, hC4, hE1, hE2, hE3, hE4, hE5, hE6, hE7]

/-- C1 (counterexample): the validator uses Python `re.match`, which anchors
the pattern only at the start: the 22-character value
`"15  48  3009  0001234X"` is accepted although it is not of the exact
`DD  DD  DDDD  DDDDDDD` shape (it has a trailing `X`). -/
theorem C1_counterexample :
    checkCustomsNumber "15  48  3009  0001234X" = true ∧
    specShape "15  48  3009  0001234X".data = false := by
  constructor
  · decide
  · decide

/-- C1 (amended): the number-format validator accepts a clearance number iff
it is empty, or its whitespace-stripped value BEGINS WITH the exact shape
`two digits, two spaces, two digits, two spaces, four digits, two spaces,
seven digits`; surrounding whitespace and arbitrary trailing characters are
tolerated, every other non-empty value is rejected with a format error. -/
theorem C1_validator_amended (s : String) :
    checkCustomsNumber s = true ↔
      s = "" ∨ ∃ y z, pyStrip s.data = y ++ z ∧ specShape y = true := by
  unfold checkCustomsNumber
  by_cases hs : s = ""
  · simp [hs]
  · rw [if_neg hs, patternMatch_iff]
    simp [hs]

/-! ## Data model

Records are kept in association lists keyed by their database id; record
lookups (`browse`/`search`) scan those lists.  Selection fields are modelled
as enumerations.  `a ∈ recordset` checks use list membership. -/

/-- `stock.landed.cost` state selection. -/
inductive LCState
  | draft
  | done
  | cancel
deriving DecidableEq, Repr

/-- `stock.picking` / `stock.move` state selection. -/
inductive PickState
  | draft
  | waiting
  | confirmed
  | assigned
  | done
  | cancel
deriving DecidableEq, Repr

/-- `account.move` payment_state selection (the values the code tests). -/
inductive PayState
  | not_paid
  | in_payment
  | paid
  | partialPaid
  | reversed
deriving DecidableEq, Repr

/-- `account.move` state selection. -/
inductive InvState
  | draft
  | posted
  | cancel
deriving DecidableEq, Repr

/-- A `stock.move`: the fields read by the code under verification.
`purchaseOrderId` stands for `move.purchase_line_id.order_id`. -/
structure Move where
  id : Nat
  state : PickState
  scrapped : Bool
  quantity : Int
  productId : Nat
  locationDestId : Nat
  purchaseOrderId : Option Nat
deriving DecidableEq, Repr

/-- A `stock.picking` (receipt transaction).  `move_ids` and
`move_ids_without_package` are both modelled by `moves`. -/
structure Picking where
  id : Nat
  name : String
  state : PickState
  partnerId : Option Nat
  moves : List Move
deriving DecidableEq, Repr

/-- An `account.move` (vendor bill) as read by the revert preconditions. -/
structure Invoice where
  id : Nat
  name : String
  state : InvState
  paymentState : PayState
deriving DecidableEq, Repr

/-- A `stock.landed.cost` (clearance document / "pedimento").
`costLines` abstracts `cost_lines` to its truthiness, the only thing the
code reads before delegating to the external costing engine. -/
structure LandedCost where
  id : Nat
  name : String
  customsNumber : String
  state : LCState
  pickingIds : List Nat
  costLines : Bool
deriving DecidableEq, Repr

/-- A `purchase.order` (procurement order). -/
structure Order where
  id : Nat
  name : String
  customsNumber : String
  partnerId : Nat
  pedimientoId : Option Nat
  pickingIds : List Nat
  invoiceIds : List Nat
deriving DecidableEq, Repr

/-- A `stock.quant`: on-hand quantity of one product at one location. -/
structure Quant where
  productId : Nat
  locationId : Nat
  quantity : Int
deriving DecidableEq, Repr

/-- The database.  `shCancelAvailable` models `hasattr(lc, 'sh_cancel')`,
i.e. whether the optional `sh_landed_cost_cancel` capability is installed.
`nextId` feeds fresh ids to records the operations create. -/
structure World where
  orders : List Order
  landedCosts : List LandedCost
  pickings : List Picking
  invoices : List Invoice
  quants : List Quant
  shCancelAvailable : Bool
  nextId : Nat
deriving DecidableEq, Repr

/-- Typed failures; each constructor is one `ValidationError` site. -/
inductive Err
  | conflictError (number lcName : String)
  | partyMismatchError (number lcName partners : String)
  | noPedimento
  | paidInvoiceError (names : String)
  | postedInvoiceError (names : String)
  | insufficientStockError (productId locationId : Nat)
  | cancellationBlockedError (lcName : String)
  | missingRecord
deriving DecidableEq, Repr

/-- `browse` an order by id. -/
def findOrder (w : World) (oid : Nat) : Option Order :=
  w.orders.find? (fun o => o.id = oid)

/-- `browse` a landed cost by id. -/
def findLC (w : World) (lid : Nat) : Option LandedCost :=
  w.landedCosts.find? (fun lc => lc.id = lid)

/-- `browse` a picking by id. -/
def findPicking (w : World) (pid : Nat) : Option Picking :=
  w.pickings.find? (fun p => p.id = pid)

/-- `browse` an invoice by id. -/
def findInvoice (w : World) (iid : Nat) : Option Invoice :=
  w.invoices.find? (fun i => i.id = iid)

/-- `search([('l10n_mx_edi_customs_number','=',n),('state','=',st)], limit=1)`
over `stock.landed.cost`. -/
def searchLC (w : World) (number : String) (st : LCState) : Option LandedCost :=
  w.landedCosts.find? (fun lc => lc.customsNumber = number && lc.state = st)

/-- Rewrite one landed cost in place. -/
def updateLC (w : World) (lid : Nat) (f : LandedCost → LandedCost) : World :=
  { w with landedCosts := w.landedCosts.map (fun lc => if lc.id = lid then f lc else lc) }

/-- Rewrite one order in place. -/
def updateOrder (w : World) (oid : Nat) (f : Order → Order) : World :=
  { w with orders := w.orders.map (fun o => if o.id = oid then f o else o) }

/-- Rewrite one picking in place. -/
def updatePicking (w : World) (pid : Nat) (f : Picking → Picking) : World :=
  { w with pickings := w.pickings.map (fun p => if p.id = pid then f p else p) }

/-- State of the landed cost `lid`, when it exists. -/
def lcState (w : World) (lid : Nat) : Option LCState :=
  (findLC w lid).map (fun lc => lc.state)

/-- Receipt set of the landed cost `lid` (empty when it does not exist). -/
def lcPick (w : World) (lid : Nat) : List Nat :=
  ((findLC w lid).map (fun lc => lc.pickingIds)).getD []

/-- `', '.join(xs)`. -/
def joinComma (xs : List String) : String := String.intercalate ", " xs

/-- Recordset deduplication: keep the first occurrence of each id. -/
def dedupAux (seen : List Nat) : List Nat → List Nat
  | [] => []
  | x :: xs => if x ∈ seen then dedupAux seen xs else x :: dedupAux (x :: seen) xs

/-- Recordset deduplication: keep the first occurrence of each id. -/
def dedupFirst (l : List Nat) : List Nat := dedupAux [] l

/-- `lc.picking_ids.mapped('partner_id')`: the partners of the document's
attached receipts (receipts without a partner contribute nothing), with
recordset deduplication. -/
def lcPartners (w : World) (lc : LandedCost) : List Nat :=
  dedupFirst ((lc.pickingIds.filterMap (findPicking w)).filterMap
    (fun p => p.partnerId))

/-! ## Clearance registry: `PurchaseOrder.button_confirm` -/

/-- One order's turn in the validation pass of `button_confirm` (lines
59–93): skipped when it has no customs number or already references a
pedimento; else a `done` landed cost with the same number is a conflict, and
a `draft` one whose receipt partners are non-empty and exclude the order's
partner is a party mismatch. -/
def orderValidationError (w : World) (o : Order) : Option Err :=
  if o.customsNumber = "" || o.pedimientoId.isSome then none
  else
    match searchLC w o.customsNumber LCState.done with
    | some lc => some (Err.conflictError o.customsNumber lc.name)
    | none =>
      match searchLC w o.customsNumber LCState.draft with
      | none => none
      | some lc =>
        let existingPartners := lcPartners w lc
        if existingPartners ≠ [] ∧ o.partnerId ∉ existingPartners then
          some (Err.partyMismatchError o.customsNumber lc.name
            (joinComma (existingPartners.map toString)))
        else none

/-- The fail-fast validation loop over the batch. -/
def validationPass (w : World) : List Order → Option Err
  | [] => none
  | o :: rest =>
    match orderValidationError w o with
    | some e => some e
    | none => validationPass w rest

/-- `_add_pickings_to_pedimiento`: merge-attach the order's receipts to its
pedimento; only ids not already present are added. -/
def addPickingsToPedimiento (w : World) (oid : Nat) : World :=
  match findOrder w oid with
  | none => w
  | some o =>
    match o.pedimientoId with
    | none => w
    | some lid =>
      if o.pickingIds = [] then w
      else
        updateLC w lid (fun lc =>
          { lc with pickingIds :=
              lc.pickingIds ++ o.pickingIds.filter (fun p => p ∉ lc.pickingIds) })

/-- One order's turn in the mutation pass of `button_confirm` (lines
97–125): reuse the order's own pedimento, else reuse a draft one with the
same number, else create a new draft pedimento carrying the order's current
receipt set. -/
def confirmMutate (w : World) (oid : Nat) : World :=
  match findOrder w oid with
  | none => w
  | some o =>
    if o.customsNumber = "" then w
    else
      match o.pedimientoId with
      | some _ => addPickingsToPedimiento w oid
      | none =>
        match searchLC w o.customsNumber LCState.draft with
        | some lc =>
          addPickingsToPedimiento
            (updateOrder w oid (fun o => { o with pedimientoId := some lc.id })) oid
        | none =>
          let newId := w.nextId
          let lc : LandedCost :=
            { id := newId
              name := "LC" ++ toString newId
              customsNumber := o.customsNumber
              state := LCState.draft
              pickingIds := o.pickingIds
              costLines := false }
          updateOrder
            { w with landedCosts := w.landedCosts ++ [lc], nextId := w.nextId + 1 }
            oid (fun o => { o with pedimientoId := some newId })

/-- `button_confirm` over a batch of orders: the fail-fast validation pass,
then (`super().button_confirm()`, the external confirmation itself, is not
observed by any property here) the per-order mutation pass.  A raised
`ValidationError` aborts the transaction, so the error case carries no
successor world. -/
def button_confirm (w : World) (orderIds : List Nat) : Except Err World :=
  match validationPass w (orderIds.filterMap (findOrder w)) with
  | some e => Except.error e
  | none => Except.ok (orderIds.foldl confirmMutate w)

/-! ## Receipt link manager: the `StockPicking` hooks -/

/-- The purchase order a picking traces back to: the first move with a
purchase order line, as in `_add_to_landed_cost`/`_remove_from_landed_cost`. -/
def derivedOrder (w : World) (p : Picking) : Option Order :=
  match p.moves.find? (fun m => m.purchaseOrderId.isSome) with
  | some m => m.purchaseOrderId.bind (findOrder w)
  | none => none

/-- `_add_to_landed_cost`: attach a freshly created picking to the pedimento
of its originating order, when that order has one (idempotent). -/
def addToLandedCost (w : World) (p : Picking) : World :=
  match derivedOrder w p with
  | none => w
  | some po =>
    match po.pedimientoId with
    | none => w
    | some lid =>
      if p.id ∈ lcPick w lid then w
      else updateLC w lid (fun lc => { lc with pickingIds := lc.pickingIds ++ [p.id] })

/-- `_remove_from_landed_cost`: detach a picking from the pedimento of its
originating order, but only while that pedimento is still `draft`. -/
def removeFromLandedCost (w : World) (p : Picking) : World :=
  match derivedOrder w p with
  | none => w
  | some po =>
    match po.pedimientoId with
    | none => w
    | some lid =>
      match findLC w lid with
      | none => w
      | some lc =>
        if lc.state = LCState.draft ∧ p.id ∈ lc.pickingIds then
          updateLC w lid (fun lc =>
            { lc with pickingIds := lc.pickingIds.filter (fun q => q ≠ p.id) })
        else w

/-- The `for picking in self: self._remove_from_landed_cost(picking)` loop
shared by `action_cancel` and `unlink`. -/
def cancelHookFold (w : World) (pids : List Nat) : World :=
  pids.foldl
    (fun acc pid =>
      match findPicking acc pid with
      | some p => removeFromLandedCost acc p
      | none => acc) w

/-- `super().action_cancel()`: the inventory engine cancels the batch
(modelled as setting each picking's state to `cancel`). -/
def setCancelFold (w : World) (pids : List Nat) : World :=
  pids.foldl
    (fun acc pid =>
      updatePicking acc pid (fun p => { p with state := PickState.cancel }))
    w

/-- `StockPicking.action_cancel`: run the detach hook for every picking of
the batch, then let the inventory engine cancel them. -/
def picking_action_cancel (w : World) (pids : List Nat) : World :=
  setCancelFold (cancelHookFold w pids) pids

/-- `StockPicking.unlink`: run the detach hook for every picking of the
batch, then delete the records. -/
def picking_unlink (w : World) (pids : List Nat) : World :=
  let w1 := cancelHookFold w pids
  { w1 with pickings := w1.pickings.filter (fun p => p.id ∉ pids) }

/-! ## Reversal orchestrator: `action_revert_pedimento` -/

/-- `payment_state in ('paid', 'in_payment', 'partial')`. -/
def isPaidish (ps : PayState) : Bool :=
  match ps with
  | PayState.paid => true
  | PayState.in_payment => true
  | PayState.partialPaid => true
  | _ => false

/-- `sum(quant.mapped('quantity'))` over the quants of one product at one
location. -/
def availableQty (w : World) (productId locationId : Nat) : Int :=
  ((w.quants.filter (fun q => q.productId = productId ∧ q.locationId = locationId)).map
    (fun q => q.quantity)).sum

/-- The stock-availability precondition of `_check_can_revert_pedimento`:
for every completed move of every done receipt, the summed on-hand quantity
at the move's destination must cover the moved quantity.  (The source also
searches for later outgoing moves at this point and discards the result;
that dead query is not modelled.) -/
def stockCheckError (w : World) (o : Order) : Option Err :=
  ((o.pickingIds.filterMap (findPicking w)).filter
      (fun p => p.state = PickState.done)).findSome?
    (fun p =>
      (p.moves.filter (fun m => m.state = PickState.done)).findSome?
        (fun m =>
          if availableQty w m.productId m.locationDestId < m.quantity then
            some (Err.insufficientStockError m.productId m.locationDestId)
          else none))

/-- `_check_can_revert_pedimento`: paid invoices, then posted-unpaid
invoices, then the stock-availability check. -/
def revertPreconditionError (w : World) (o : Order) : Option Err :=
  let invs := o.invoiceIds.filterMap (findInvoice w)
  let paid := invs.filter (fun i => isPaidish i.paymentState)
  if paid ≠ [] then
    some (Err.paidInvoiceError (joinComma (paid.map (fun i => i.name))))
  else
    let posted := invs.filter
      (fun i => i.state = InvState.posted ∧ isPaidish i.paymentState = false)
    if posted ≠ [] then
      some (Err.postedInvoiceError (joinComma (posted.map (fun i => i.name))))
    else stockCheckError w o

/-- The moves of a picking the return wizard would re-ship:
`state == 'done' and not scrapped and quantity > 0`. -/
def returnableMoves (p : Picking) : List Move :=
  p.moves.filter
    (fun m => m.state = PickState.done ∧ m.scrapped = false ∧ m.quantity > 0)

/-- `_create_return_for_picking`: no-return result for a non-done picking or
one without returnable moves; otherwise the external `stock.return.picking`
wizard creates a reversing transfer for the full returnable quantities,
reserves and validates it.  The reversing transfer's internal content is the
wizard's business and is not examined by any property of this core. -/
def createReturnForPicking (w : World) (pid : Nat) : World × Option Nat :=
  match findPicking w pid with
  | none => (w, none)
  | some p =>
    if p.state ≠ PickState.done then (w, none)
    else if returnableMoves p = [] then (w, none)
    else
      let rid := w.nextId
      let ret : Picking :=
        { id := rid
          name := "RET" ++ toString rid
          state := PickState.done
          partnerId := p.partnerId
          moves := [] }
      ({ w with pickings := w.pickings ++ [ret], nextId := w.nextId + 1 }, some rid)

/-- Step 5 of the reversal: clear the order's pedimento reference. -/
def finishRevert (w : World) (oid : Nat) (rets : List Nat) : World × List Nat :=
  (updateOrder w oid (fun o => { o with pedimientoId := none }), rets)

/-- Step 2–3 of the reversal, for one done receipt: attempt a return; on
success detach the receipt from the pedimento `lid` by hand (regardless of
the pedimento's state) and record the created return. -/
def revertDonePicking (lid : Nat) (acc : World × List Nat) (p : Picking) :
    World × List Nat :=
  match createReturnForPicking acc.1 p.id with
  | (wb, none) => (wb, acc.2)
  | (wb, some rid) =>
    if p.id ∈ lcPick wb lid then
      (updateLC wb lid (fun lc =>
        { lc with pickingIds := lc.pickingIds.filter (fun q => q ≠ p.id) }),
       acc.2 ++ [rid])
    else (wb, acc.2 ++ [rid])

/-- Steps 1–3 of the reversal: cancel the order's non-terminal receipts
(which fires the draft-only detach hook), then return the done receipts,
detaching each successfully returned one by hand.  Returns the new world and
the created return pickings. -/
def revertStep12 (w : World) (o : Order) (lid : Nat) : World × List Nat :=
  let pickings := o.pickingIds.filterMap (findPicking w)
  let donePickings := pickings.filter (fun p => p.state = PickState.done)
  let nonDonePickings := pickings.filter
    (fun p => p.state ≠ PickState.done ∧ p.state ≠ PickState.cancel)
  let w1 := picking_action_cancel w (nonDonePickings.map (fun p => p.id))
  donePickings.foldl (revertDonePicking lid) (w1, [])

/-- Steps 4–5 of the reversal: cancel the pedimento when this order owns it
exclusively (`done` needs the external `sh_cancel` safe-cancel capability,
modelled by `shCancelAvailable`, else the blocking error; `draft` is
cancelled directly via `button_cancel`), then clear the order's reference. -/
def revertFinal (w2 : World) (oid lid : Nat) (exclusive : Bool)
    (returnIds : List Nat) : Except Err (World × List Nat) :=
  match findLC w2 lid with
  | none => Except.error Err.missingRecord
  | some ped =>
    if exclusive then
      if ped.state = LCState.done then
        if w2.shCancelAvailable then
          Except.ok (finishRevert
            (updateLC w2 lid (fun lc => { lc with state := LCState.cancel }))
            oid returnIds)
        else Except.error (Err.cancellationBlockedError ped.name)
      else if ped.state = LCState.draft then
        Except.ok (finishRevert
          (updateLC w2 lid (fun lc => { lc with state := LCState.cancel }))
          oid returnIds)
      else Except.ok (finishRevert w2 oid returnIds)
    else Except.ok (finishRevert w2 oid returnIds)

/-- `action_revert_pedimento` (lines 154–243): guard, preconditions,
exclusivity, cancel non-terminal receipts, return done receipts (detaching
each returned receipt by hand), cancel the pedimento when exclusive, then
clear the order's reference.  A raised `ValidationError` rolls the
transaction back, so the error case carries no successor world.  The result
carries the created return pickings. -/
def action_revert_pedimento (w : World) (oid : Nat) :
    Except Err (World × List Nat) :=
  match findOrder w oid with
  | none => Except.error Err.missingRecord
  | some o =>
    match o.pedimientoId with
    | none => Except.error Err.noPedimento
    | some lid =>
      match revertPreconditionError w o with
      | some e => Except.error e
      | none =>
        let otherOrders := w.orders.filter
          (fun o2 => o2.pedimientoId = some lid ∧ o2.id ≠ oid)
        let s := revertStep12 w o lid
        revertFinal s.1 oid lid otherOrders.isEmpty s.2

/-! ## Bulk validation coordinator: `action_validate_pedimentos_bulk` -/

/-- Notification severity of the aggregated report. -/
inductive Severity
  | success
  | warning
  | danger
deriving DecidableEq, Repr

/-- `'success' if validated_pedimentos and not validation_errors else
('warning' if validated_pedimentos or not validation_errors else 'danger')`. -/
def severityOf (validated : List Nat) (errors : List (Nat × String)) : Severity :=
  if validated ≠ [] ∧ errors = [] then Severity.success
  else if validated ≠ [] ∨ errors = [] then Severity.warning
  else Severity.danger

/-- The aggregated bulk-validation report (category counts and names are
derived from the id lists; errors carry the pedimento id and the message the
source would format into the display string). -/
structure Report where
  validated : List Nat
  withoutCustoms : List Nat
  withoutPedimento : List Nat
  alreadyValidated : List Nat
  errors : List (Nat × String)
  severity : Severity
deriving DecidableEq, Repr

/-- `o.pedimiento_id and o.pedimiento_id.state == 'draft'`. -/
def hasDraftPed (w : World) (o : Order) : Bool :=
  match o.pedimientoId with
  | some lid => lcState w lid = some LCState.draft
  | none => false

/-- `o.pedimiento_id and o.pedimiento_id.state == 'done'`. -/
def hasDonePed (w : World) (o : Order) : Bool :=
  match o.pedimientoId with
  | some lid => lcState w lid = some LCState.done
  | none => false

/-- `orders_to_validate.mapped('pedimiento_id')`: the unique draft pedimentos
of the batch, first occurrence first. -/
def pedimentosToValidate (w : World) (orders : List Order) : List Nat :=
  dedupFirst ((orders.filter (hasDraftPed w)).filterMap (fun o => o.pedimientoId))

/-- The per-document error message recorded for a pedimento without
receipts. -/
def noReceiptsMsg : String := "No tiene transferencias asociadas."

/-- One unique pedimento's turn in the bulk loop: no receipts is a recorded
error and a skip; otherwise cost computation (external, unobserved) runs
when cost lines exist and the external costing engine validates the
document.  `oracle lid = some msg` models `button_validate` (or the cost
computation) raising, which is caught and recorded; `none` models success,
which moves the document to `done`. -/
def processPedimento (oracle : Nat → Option String)
    (acc : World × List Nat × List (Nat × String)) (lid : Nat) :
    World × List Nat × List (Nat × String) :=
  match findLC acc.1 lid with
  | none => acc
  | some ped =>
    if ped.pickingIds = [] then
      (acc.1, acc.2.1, acc.2.2 ++ [(lid, noReceiptsMsg)])
    else
      match oracle lid with
      | some msg => (acc.1, acc.2.1, acc.2.2 ++ [(lid, msg)])
      | none =>
        (updateLC acc.1 lid (fun lc => { lc with state := LCState.done }),
         acc.2.1 ++ [lid], acc.2.2)

/-- `action_validate_pedimentos_bulk` (lines 347–468): empty batches close
immediately (no report); otherwise the orders are partitioned into the four
categories, the unique draft pedimentos are each processed once, and one
aggregated report is produced; a per-document failure is recorded and never
aborts the batch. -/
def action_validate_pedimentos_bulk (oracle : Nat → Option String) (w : World)
    (orderIds : List Nat) : Option (World × Report) :=
  if orderIds = [] then none
  else
    let orders := orderIds.filterMap (findOrder w)
    let withoutCustoms := orders.filter (fun o => o.customsNumber = "")
    let withoutPedimento := orders.filter
      (fun o => o.customsNumber ≠ "" ∧ o.pedimientoId = none)
    let alreadyValidated := orders.filter (hasDonePed w)
    let toValidate := pedimentosToValidate w orders
    let res := toValidate.foldl (processPedimento oracle) (w, [], [])
    some (res.1,
      { validated := res.2.1
        withoutCustoms := withoutCustoms.map (fun o => o.id)
        withoutPedimento := withoutPedimento.map (fun o => o.id)
        alreadyValidated := alreadyValidated.map (fun o => o.id)
        errors := res.2.2
        severity := severityOf res.2.1 res.2.2 })

/-! ## Theorems -/

/-! ### Frame lemmas -/

theorem find?_map_pres {α : Type} (p : α → Bool) (g : α → α) (l : List α)
    (hg : ∀ a, p (g a) = p a) :
    (l.map g).find? p = (l.find? p).map g := by
  induction l with
  | nil => rfl
  | cons a l ih =>
    by_cases hpa : p a = true
    · rw [List.map_cons, List.find?_cons_of_pos _ (by rw [hg a]; exact hpa),
        List.find?_cons_of_pos _ hpa]
      rfl
    · rw [List.map_cons, List.find?_cons_of_neg _ (by rw [hg a]; exact hpa),
        List.find?_cons_of_neg _ hpa, ih]

theorem findOrder_id {w : World} {oid : Nat} {o : Order}
    (h : findOrder w oid = some o) : o.id = oid := by
  have := List.find?_some h
  simpa using this

theorem findLC_id {w : World} {lid : Nat} {lc : LandedCost}
    (h : findLC w lid = some lc) : lc.id = lid := by
  have := List.find?_some h
  simpa using this

theorem findPicking_id {w : World} {pid : Nat} {p : Picking}
    (h : findPicking w pid = some p) : p.id = pid := by
  have := List.find?_some h
  simpa using this

theorem findLC_updateLC (w : World) (lid q : Nat) (f : LandedCost → LandedCost)
    (hf : ∀ lc, (f lc).id = lc.id) :
    findLC (updateLC w lid f) q =
      (findLC w q).map (fun lc => if lc.id = lid then f lc else lc) := by
  unfold findLC updateLC
  exact find?_map_pres _ _ _
    (fun lc => by by_cases h : lc.id = lid <;> simp [h, hf])

theorem findLC_updateLC_ne (w : World) (lid q : Nat) (f : LandedCost → LandedCost)
    (hf : ∀ lc, (f lc).id = lc.id) (hq : q ≠ lid) :
    findLC (updateLC w lid f) q = findLC w q := by
  rw [findLC_updateLC w lid q f hf]
  cases h : findLC w q with
  | none => rfl
  | some lc =>
    have hid := findLC_id h
    simp [hid, hq]

theorem findLC_updateLC_eq (w : World) (lid : Nat) (f : LandedCost → LandedCost)
    (hf : ∀ lc, (f lc).id = lc.id) (lc : LandedCost) (h : findLC w lid = some lc) :
    findLC (updateLC w lid f) lid = some (f lc) := by
  rw [findLC_updateLC w lid lid f hf, h]
  have hid := findLC_id h
  simp [hid]

theorem findOrder_updateOrder (w : World) (oid q : Nat) (f : Order → Order)
    (hf : ∀ o, (f o).id = o.id) :
    findOrder (updateOrder w oid f) q =
      (findOrder w q).map (fun o => if o.id = oid then f o else o) := by
  unfold findOrder updateOrder
  exact find?_map_pres _ _ _
    (fun o => by by_cases h : o.id = oid <;> simp [h, hf])

theorem findPicking_updatePicking (w : World) (pid q : Nat)
    (f : Picking → Picking) (hf : ∀ p, (f p).id = p.id) :
    findPicking (updatePicking w pid f) q =
      (findPicking w q).map (fun p => if p.id = pid then f p else p) := by
  unfold findPicking updatePicking
  exact find?_map_pres _ _ _
    (fun p => by by_cases h : p.id = pid <;> simp [h, hf])

theorem findPicking_updatePicking_ne (w : World) (pid q : Nat)
    (f : Picking → Picking) (hf : ∀ p, (f p).id = p.id) (hq : q ≠ pid) :
    findPicking (updatePicking w pid f) q = findPicking w q := by
  rw [findPicking_updatePicking w pid q f hf]
  cases h : findPicking w q with
  | none => rfl
  | some p =>
    have hid := findPicking_id h
    simp [hid, hq]

/-- The identity of a landed cost minus its receipt set. -/
def lcCore (lc : LandedCost) : Nat × String × String × LCState × Bool :=
  (lc.id, lc.name, lc.customsNumber, lc.state, lc.costLines)

/-- `lcCore` of the landed cost `q`, when it exists. -/
def lcCoreAt (w : World) (q : Nat) : Option (Nat × String × String × LCState × Bool) :=
  (findLC w q).map lcCore

theorem lcCoreAt_updateLC (w : World) (lid q : Nat) (f : LandedCost → LandedCost)
    (hf : ∀ lc, lcCore (f lc) = lcCore lc) :
    lcCoreAt (updateLC w lid f) q = lcCoreAt w q := by
  have hid : ∀ lc, (f lc).id = lc.id := fun lc =>
    congrArg (fun t => t.1) (hf lc)
  unfold lcCoreAt
  rw [findLC_updateLC w lid q f hid]
  cases findLC w q with
  | none => rfl
  | some lc =>
    by_cases h : lc.id = lid <;> simp [h, hf]

theorem lcCore_setPick (g : List Nat → List Nat) (lc : LandedCost) :
    lcCore { lc with pickingIds := g lc.pickingIds } = lcCore lc := rfl

/-- A generic preservation principle for folds. -/
theorem foldl_pres {α β M : Type} (f : β → M) (step : β → α → β)
    (l : List α) (b : β) (hstep : ∀ b a, a ∈ l → f (step b a) = f b) :
    f (l.foldl step b) = f b := by
  induction l generalizing b with
  | nil => rfl
  | cons a l ih =>
    rw [List.foldl_cons, ih _ (fun b' a' ha' => hstep b' a' (List.mem_cons_of_mem a ha')),
      hstep b a (List.mem_cons_self a l)]

theorem removeFromLandedCost_orders (w : World) (p : Picking) :
    (removeFromLandedCost w p).orders = w.orders := by
  unfold removeFromLandedCost
  repeat' split
  all_goals rfl

theorem removeFromLandedCost_pickings (w : World) (p : Picking) :
    (removeFromLandedCost w p).pickings = w.pickings := by
  unfold removeFromLandedCost
  repeat' split
  all_goals rfl

theorem removeFromLandedCost_sh (w : World) (p : Picking) :
    (removeFromLandedCost w p).shCancelAvailable = w.shCancelAvailable := by
  unfold removeFromLandedCost
  repeat' split
  all_goals rfl

theorem lcCoreAt_removeFromLandedCost (w : World) (p : Picking) (q : Nat) :
    lcCoreAt (removeFromLandedCost w p) q = lcCoreAt w q := by
  unfold removeFromLandedCost
  repeat' split
  any_goals rfl
  exact lcCoreAt_updateLC _ _ _ _ (fun lc => rfl)

theorem cancelHookFold_orders (w : World) (pids : List Nat) :
    (cancelHookFold w pids).orders = w.orders := by
  unfold cancelHookFold
  refine foldl_pres _ _ _ _ (fun b a _ => ?_)
  cases findPicking b a with
  | some p => exact removeFromLandedCost_orders b p
  | none => rfl

theorem cancelHookFold_pickings (w : World) (pids : List Nat) :
    (cancelHookFold w pids).pickings = w.pickings := by
  unfold cancelHookFold
  refine foldl_pres _ _ _ _ (fun b a _ => ?_)
  cases findPicking b a with
  | some p => exact removeFromLandedCost_pickings b p
  | none => rfl

theorem cancelHookFold_sh (w : World) (pids : List Nat) :
    (cancelHookFold w pids).shCancelAvailable = w.shCancelAvailable := by
  unfold cancelHookFold
  refine foldl_pres _ _ _ _ (fun b a _ => ?_)
  cases findPicking b a with
  | some p => exact removeFromLandedCost_sh b p
  | none => rfl

theorem lcCoreAt_cancelHookFold (w : World) (pids : List Nat) (q : Nat) :
    lcCoreAt (cancelHookFold w pids) q = lcCoreAt w q := by
  unfold cancelHookFold
  refine foldl_pres (fun w' => lcCoreAt w' q) _ _ _ (fun b a _ => ?_)
  cases findPicking b a with
  | some p => exact lcCoreAt_removeFromLandedCost b p q
  | none => rfl

theorem setCancelFold_landedCosts (w : World) (pids : List Nat) :
    (setCancelFold w pids).landedCosts = w.landedCosts := by
  unfold setCancelFold
  exact foldl_pres _ _ _ _ (fun b a _ => rfl)

theorem setCancelFold_orders (w : World) (pids : List Nat) :
    (setCancelFold w pids).orders = w.orders := by
  unfold setCancelFold
  exact foldl_pres _ _ _ _ (fun b a _ => rfl)

theorem setCancelFold_sh (w : World) (pids : List Nat) :
    (setCancelFold w pids).shCancelAvailable = w.shCancelAvailable := by
  unfold setCancelFold
  exact foldl_pres _ _ _ _ (fun b a _ => rfl)

theorem lcCoreAt_of_landedCosts_eq {w1 w2 : World}
    (h : w1.landedCosts = w2.landedCosts) (q : Nat) :
    lcCoreAt w1 q = lcCoreAt w2 q := by
  unfold lcCoreAt findLC
  rw [h]

theorem lcPick_of_landedCosts_eq {w1 w2 : World}
    (h : w1.landedCosts = w2.landedCosts) (q : Nat) :
    lcPick w1 q = lcPick w2 q := by
  unfold lcPick findLC
  rw [h]

theorem createReturn_landedCosts (w : World) (pid : Nat) :
    (createReturnForPicking w pid).1.landedCosts = w.landedCosts := by
  unfold createReturnForPicking
  repeat' split
  all_goals rfl

theorem createReturn_orders (w : World) (pid : Nat) :
    (createReturnForPicking w pid).1.orders = w.orders := by
  unfold createReturnForPicking
  repeat' split
  all_goals rfl

theorem createReturn_sh (w : World) (pid : Nat) :
    (createReturnForPicking w pid).1.shCancelAvailable = w.shCancelAvailable := by
  unfold createReturnForPicking
  repeat' split
  all_goals rfl

theorem revertDonePicking_orders (lid : Nat) (acc : World × List Nat) (p : Picking) :
    (revertDonePicking lid acc p).1.orders = acc.1.orders := by
  have h1 := createReturn_orders acc.1 p.id
  unfold revertDonePicking
  split
  · next wb heq => rw [heq] at h1; simpa using h1
  · next wb rid heq =>
    rw [heq] at h1
    split
    · simpa using h1
    · simpa using h1

theorem revertDonePicking_sh (lid : Nat) (acc : World × List Nat) (p : Picking) :
    (revertDonePicking lid acc p).1.shCancelAvailable = acc.1.shCancelAvailable := by
  have h1 := createReturn_sh acc.1 p.id
  unfold revertDonePicking
  split
  · next wb heq => rw [heq] at h1; simpa using h1
  · next wb rid heq =>
    rw [heq] at h1
    split
    · simpa using h1
    · simpa using h1

theorem lcCoreAt_revertDonePicking (lid : Nat) (acc : World × List Nat)
    (p : Picking) (q : Nat) :
    lcCoreAt (revertDonePicking lid acc p).1 q = lcCoreAt acc.1 q := by
  have h1 := createReturn_landedCosts acc.1 p.id
  unfold revertDonePicking
  split
  · next wb heq =>
    rw [heq] at h1
    exact lcCoreAt_of_landedCosts_eq (by simpa using h1) q
  · next wb rid heq =>
    rw [heq] at h1
    have h2 : lcCoreAt wb q = lcCoreAt acc.1 q :=
      lcCoreAt_of_landedCosts_eq (by simpa using h1) q
    split
    · refine ((lcCoreAt_updateLC wb lid q _ ?_).trans h2)
      intro lc
      rfl
    · exact h2

theorem lcCoreAt_revertStep12 (w : World) (o : Order) (lid q : Nat) :
    lcCoreAt (revertStep12 w o lid).1 q = lcCoreAt w q := by
  unfold revertStep12 picking_action_cancel
  rw [foldl_pres (fun (acc : World × List Nat) => lcCoreAt acc.1 q)
    (revertDonePicking lid) _ _ (fun b a _ => lcCoreAt_revertDonePicking lid b a q)]
  rw [lcCoreAt_of_landedCosts_eq (setCancelFold_landedCosts _ _) q]
  exact lcCoreAt_cancelHookFold _ _ q

theorem orders_revertStep12 (w : World) (o : Order) (lid : Nat) :
    (revertStep12 w o lid).1.orders = w.orders := by
  unfold revertStep12 picking_action_cancel
  rw [foldl_pres (fun (acc : World × List Nat) => acc.1.orders)
    (revertDonePicking lid) _ _ (fun b a _ => revertDonePicking_orders lid b a)]
  rw [setCancelFold_orders, cancelHookFold_orders]

theorem sh_revertStep12 (w : World) (o : Order) (lid : Nat) :
    (revertStep12 w o lid).1.shCancelAvailable = w.shCancelAvailable := by
  unfold revertStep12 picking_action_cancel
  rw [foldl_pres (fun (acc : World × List Nat) => acc.1.shCancelAvailable)
    (revertDonePicking lid) _ _ (fun b a _ => revertDonePicking_sh lid b a)]
  rw [setCancelFold_sh, cancelHookFold_sh]

theorem findOrder_of_orders_eq {w1 w2 : World} (h : w1.orders = w2.orders)
    (q : Nat) : findOrder w1 q = findOrder w2 q := by
  unfold findOrder
  rw [h]

theorem findPicking_of_pickings_eq {w1 w2 : World} (h : w1.pickings = w2.pickings)
    (q : Nat) : findPicking w1 q = findPicking w2 q := by
  unfold findPicking
  rw [h]

theorem lcState_eq_of_lcCoreAt_eq {w1 w2 : World} {q : Nat}
    (h : lcCoreAt w1 q = lcCoreAt w2 q) : lcState w1 q = lcState w2 q := by
  unfold lcCoreAt at h
  unfold lcState
  cases h1 : findLC w1 q with
  | none =>
    rw [h1] at h
    cases h2 : findLC w2 q with
    | none => rfl
    | some lc2 => rw [h2] at h; cases h
  | some lc1 =>
    rw [h1] at h
    cases h2 : findLC w2 q with
    | none => rw [h2] at h; cases h
    | some lc2 =>
      rw [h2] at h
      simp only [Option.map_some', Option.some.injEq] at h
      have := congrArg (fun t => t.2.2.2.1) h
      simpa using this

theorem finishRevert_fst (w : World) (oid : Nat) (rets : List Nat) :
    (finishRevert w oid rets).1 =
      updateOrder w oid (fun o => { o with pedimientoId := none }) := rfl

theorem updateOrder_landedCosts (w : World) (oid : Nat) (f : Order → Order) :
    (updateOrder w oid f).landedCosts = w.landedCosts := rfl

/-- C4: when an order is the only one referencing its clearance document,
the document is `done`, the revert preconditions hold, and the external
safe-cancel capability is absent, the reversal orchestrator fails with the
cancellation-blocked error; the error rolls the transaction back, so the
order's document reference (and everything else) is left exactly as it
was — the reference is not cleared. -/
theorem C4_revert_blocked (w : World) (oid lid : Nat) (o : Order)
    (ped : LandedCost)
    (ho : findOrder w oid = some o)
    (hped : o.pedimientoId = some lid)
    (hlc : findLC w lid = some ped)
    (hdone : ped.state = LCState.done)
    (hexcl : ∀ o2 ∈ w.orders, o2.pedimientoId = some lid → o2.id = oid)
    (hpre : revertPreconditionError w o = none)
    (hcap : w.shCancelAvailable = false) :
    action_revert_pedimento w oid =
      Except.error (Err.cancellationBlockedError ped.name) := by
  have hother : w.orders.filter
      (fun o2 => o2.pedimientoId = some lid ∧ o2.id ≠ oid) = [] := by
    rw [List.filter_eq_nil_iff]
    intro o2 h2
    simp only [decide_eq_true_eq, not_and, ne_eq, not_not]
    intro h3
    exact hexcl o2 h2 h3
  have hcore : lcCoreAt (revertStep12 w o lid).1 lid = some (lcCore ped) := by
    rw [lcCoreAt_revertStep12]
    unfold lcCoreAt
    rw [hlc]
    rfl
  obtain ⟨ped2, hped2, hcore2⟩ : ∃ ped2,
      findLC (revertStep12 w o lid).1 lid = some ped2 ∧ lcCore ped2 = lcCore ped := by
    unfold lcCoreAt at hcore
    cases hf : findLC (revertStep12 w o lid).1 lid with
    | none => rw [hf] at hcore; cases hcore
    | some x =>
      rw [hf] at hcore
      exact ⟨x, rfl, by simpa using hcore⟩
  have hstate2 : ped2.state = LCState.done := by
    have := congrArg (fun t => t.2.2.2.1) hcore2
    simpa [lcCore, hdone] using this
  have hname2 : ped2.name = ped.name := by
    have := congrArg (fun t => t.2.1) hcore2
    simpa [lcCore] using this
  have hsh : (revertStep12 w o lid).1.shCancelAvailable = false := by
    rw [sh_revertStep12]
    exact hcap
  unfold action_revert_pedimento
  simp only [ho, hped, hpre, hother, List.isEmpty_nil]
  unfold revertFinal
  simp [hped2, hstate2, hsh, hname2]

/-- One exclusive order with a validated pedimento and no capability. -/
def W4 : World :=
  { orders := [{ id := 1, name := "PO1", customsNumber := "15  48  3009  0001234",
                 partnerId := 5, pedimientoId := some 10, pickingIds := [],
                 invoiceIds := [] }]
    landedCosts := [{ id := 10, name := "LC10",
                      customsNumber := "15  48  3009  0001234",
                      state := LCState.done, pickingIds := [100],
                      costLines := false }]
    pickings := [], invoices := [], quants := []
    shCancelAvailable := false, nextId := 300 }

theorem C4_witness :
    action_revert_pedimento W4 1 =
      Except.error (Err.cancellationBlockedError "LC10") :=
  C4_revert_blocked W4 1 10
    { id := 1, name := "PO1", customsNumber := "15  48  3009  0001234",
      partnerId := 5, pedimientoId := some 10, pickingIds := [], invoiceIds := [] }
    { id := 10, name := "LC10", customsNumber := "15  48  3009  0001234",
      state := LCState.done, pickingIds := [100], costLines := false }
    rfl rfl rfl rfl (by decide) rfl rfl

/-- C5: reverting an order whose clearance document is shared with at least
one other order clears only the reverted order's document reference; the
document itself (its state included — it is not cancelled) and every other
order's document reference are left unchanged. -/
theorem C5_revert_shared_frame (w : World) (oid lid : Nat) (o o2 : Order)
    (w' : World) (rets : List Nat)
    (ho : findOrder w oid = some o)
    (hped : o.pedimientoId = some lid)
    (h2mem : o2 ∈ w.orders) (h2ne : o2.id ≠ oid)
    (h2ped : o2.pedimientoId = some lid)
    (hok : action_revert_pedimento w oid = Except.ok (w', rets)) :
    (∃ o', findOrder w' oid = some o' ∧ o'.pedimientoId = none) ∧
    lcCoreAt w' lid = lcCoreAt w lid ∧
    (∀ q, q ≠ oid →
      (findOrder w' q).map (fun x => x.pedimientoId) =
        (findOrder w q).map (fun x => x.pedimientoId)) := by
  have hmemf : o2 ∈ w.orders.filter
      (fun x => x.pedimientoId = some lid ∧ x.id ≠ oid) :=
    List.mem_filter.mpr ⟨h2mem, by simp [h2ped, h2ne]⟩
  have hne : (w.orders.filter
      (fun x => x.pedimientoId = some lid ∧ x.id ≠ oid)).isEmpty = false := by
    cases hf : w.orders.filter (fun x => x.pedimientoId = some lid ∧ x.id ≠ oid) with
    | nil => rw [hf] at hmemf; cases hmemf
    | cons a t => rfl
  cases hpre : revertPreconditionError w o with
  | some e =>
    unfold action_revert_pedimento at hok
    simp only [ho, hped, hpre] at hok
    simp at hok
  | none =>
    unfold action_revert_pedimento at hok
    simp only [ho, hped, hpre, hne] at hok
    unfold revertFinal at hok
    cases hfl : findLC (revertStep12 w o lid).1 lid with
    | none => rw [hfl] at hok; cases hok
    | some ped2 =>
      rw [hfl] at hok
      simp only [Bool.false_eq_true, if_false, Except.ok.injEq] at hok
      have hw : w' = (finishRevert (revertStep12 w o lid).1 oid
          (revertStep12 w o lid).2).1 := by
        rw [hok]
      rw [finishRevert_fst] at hw
      have hofs : (revertStep12 w o lid).1.orders = w.orders :=
        orders_revertStep12 w o lid
      refine ⟨?_, ?_, ?_⟩
      · refine ⟨{ o with pedimientoId := none }, ?_, rfl⟩
        rw [hw, findOrder_updateOrder _ oid oid
            (fun x => { x with pedimientoId := none }) (fun x => rfl),
          findOrder_of_orders_eq hofs, ho]
        have hid : o.id = oid := findOrder_id ho
        simp [hid]
      · rw [hw]
        have h1 : lcCoreAt (updateOrder (revertStep12 w o lid).1 oid
            (fun x => { x with pedimientoId := none })) lid =
            lcCoreAt (revertStep12 w o lid).1 lid :=
          lcCoreAt_of_landedCosts_eq (updateOrder_landedCosts _ _ _) lid
        rw [h1, lcCoreAt_revertStep12]
      · intro q hq
        rw [hw, findOrder_updateOrder _ oid q
            (fun x => { x with pedimientoId := none }) (fun x => rfl),
          findOrder_of_orders_eq hofs]
        cases hfq : findOrder w q with
        | none => rfl
        | some x =>
          have hid : x.id = q := findOrder_id hfq
          simp [hid, hq]

/-- Two orders sharing one draft pedimento; reverting the first succeeds. -/
def W5 : World :=
  { orders := [{ id := 1, name := "PO1", customsNumber := "15  48  3009  0001234",
                 partnerId := 5, pedimientoId := some 10, pickingIds := [],
                 invoiceIds := [] },
               { id := 2, name := "PO2", customsNumber := "15  48  3009  0001234",
                 partnerId := 5, pedimientoId := some 10, pickingIds := [],
                 invoiceIds := [] }]
    landedCosts := [{ id := 10, name := "LC10",
                      customsNumber := "15  48  3009  0001234",
                      state := LCState.draft, pickingIds := [], costLines := false }]
    pickings := [], invoices := [], quants := []
    shCancelAvailable := false, nextId := 400 }

/-- `W5` after reverting order 1: only that order's reference is cleared. -/
def W5after : World :=
  { orders := [{ id := 1, name := "PO1", customsNumber := "15  48  3009  0001234",
                 partnerId := 5, pedimientoId := none, pickingIds := [],
                 invoiceIds := [] },
               { id := 2, name := "PO2", customsNumber := "15  48  3009  0001234",
                 partnerId := 5, pedimientoId := some 10, pickingIds := [],
                 invoiceIds := [] }]
    landedCosts := [{ id := 10, name := "LC10",
                      customsNumber := "15  48  3009  0001234",
                      state := LCState.draft, pickingIds := [], costLines := false }]
    pickings := [], invoices := [], quants := []
    shCancelAvailable := false, nextId := 400 }

theorem C5_witness :
    action_revert_pedimento W5 1 = Except.ok (W5after, []) ∧
    ((∃ o', findOrder W5after 1 = some o' ∧ o'.pedimientoId = none) ∧
     lcCoreAt W5after 10 = lcCoreAt W5 10 ∧
     (∀ q, q ≠ 1 →
       (findOrder W5after q).map (fun x => x.pedimientoId) =
         (findOrder W5 q).map (fun x => x.pedimientoId))) :=
  ⟨rfl, C5_revert_shared_frame W5 1 10
    { id := 1, name := "PO1", customsNumber := "15  48  3009  0001234",
      partnerId := 5, pedimientoId := some 10, pickingIds := [], invoiceIds := [] }
    { id := 2, name := "PO2", customsNumber := "15  48  3009  0001234",
      partnerId := 5, pedimientoId := some 10, pickingIds := [], invoiceIds := [] }
    W5after [] rfl rfl (by decide) (by decide) rfl rfl⟩

theorem find?_append_left {α : Type} (l l2 : List α) (p : α → Bool) (a : α)
    (h : l.find? p = some a) : (l ++ l2).find? p = some a := by
  induction l with
  | nil => cases h
  | cons b l ih =>
    by_cases hb : p b = true
    · rw [List.find?_cons_of_pos _ hb] at h
      rw [List.cons_append, List.find?_cons_of_pos _ hb]
      exact h
    · rw [List.find?_cons_of_neg _ hb] at h
      rw [List.cons_append, List.find?_cons_of_neg _ hb]
      exact ih h

theorem findPicking_createReturn (w : World) (pid x : Nat) (p : Picking)
    (h : findPicking w x = some p) :
    findPicking (createReturnForPicking w pid).1 x = some p := by
  unfold createReturnForPicking
  cases hf : findPicking w pid with
  | none => exact h
  | some r =>
    dsimp only
    by_cases h1 : r.state ≠ PickState.done
    · rw [if_pos h1]; exact h
    · rw [if_neg h1]
      by_cases h2 : returnableMoves r = []
      · rw [if_pos h2]; exact h
      · rw [if_neg h2]
        unfold findPicking at h ⊢
        exact find?_append_left _ _ _ _ h

theorem lcPick_updateLC_ne (w : World) (lid q : Nat) (f : LandedCost → LandedCost)
    (hf : ∀ lc, (f lc).id = lc.id) (hq : q ≠ lid) :
    lcPick (updateLC w lid f) q = lcPick w q := by
  unfold lcPick
  rw [findLC_updateLC_ne w lid q f hf hq]

theorem lcPick_updateLC_eq (w : World) (lid : Nat) (f : LandedCost → LandedCost)
    (hf : ∀ lc, (f lc).id = lc.id) (lc : LandedCost)
    (h : findLC w lid = some lc) :
    lcPick (updateLC w lid f) lid = (f lc).pickingIds := by
  unfold lcPick
  rw [findLC_updateLC_eq w lid f hf lc h]
  rfl

theorem lcPick_findLC {w : World} {lid : Nat} {lc : LandedCost}
    (h : findLC w lid = some lc) : lcPick w lid = lc.pickingIds := by
  unfold lcPick
  rw [h]
  rfl

theorem lcPick_mem_removeFromLandedCost (w : World) (r : Picking) (x l : Nat)
    (hx : x ≠ r.id) (h : x ∈ lcPick w l) :
    x ∈ lcPick (removeFromLandedCost w r) l := by
  unfold removeFromLandedCost
  cases hd : derivedOrder w r with
  | none => exact h
  | some po =>
    dsimp only
    cases hp : po.pedimientoId with
    | none => exact h
    | some lid0 =>
      dsimp only
      cases hfl : findLC w lid0 with
      | none => exact h
      | some lc0 =>
        dsimp only
        by_cases hc : lc0.state = LCState.draft ∧ r.id ∈ lc0.pickingIds
        · rw [if_pos hc]
          by_cases hl : l = lid0
          · subst hl
            rw [lcPick_updateLC_eq w l
              (fun lc => { lc with pickingIds :=
                lc.pickingIds.filter (fun y => y ≠ r.id) })
              (fun lc => rfl) lc0 hfl]
            have h' : x ∈ lc0.pickingIds := by
              rw [lcPick_findLC hfl] at h
              exact h
            exact List.mem_filter.mpr ⟨h', by simpa using hx⟩
          · rw [lcPick_updateLC_ne w lid0 l
              (fun lc => { lc with pickingIds :=
                lc.pickingIds.filter (fun y => y ≠ r.id) })
              (fun lc => rfl) hl]
            exact h
        · rw [if_neg hc]
          exact h

theorem lcPick_mem_cancelHookFold (pids : List Nat) (x l : Nat) :
    ∀ w : World, x ∉ pids → x ∈ lcPick w l →
      x ∈ lcPick (cancelHookFold w pids) l := by
  induction pids with
  | nil => intro w _ h; exact h
  | cons pid rest ih =>
    intro w hx h
    have hstep : cancelHookFold w (pid :: rest) =
        cancelHookFold (match findPicking w pid with
          | some p => removeFromLandedCost w p
          | none => w) rest := rfl
    rw [hstep]
    have hx' : x ∉ rest := fun hc => hx (List.mem_cons_of_mem pid hc)
    apply ih _ hx'
    cases hp : findPicking w pid with
    | none => exact h
    | some r =>
      apply lcPick_mem_removeFromLandedCost
      · have hrid : r.id = pid := findPicking_id hp
        rw [hrid]
        exact fun hxx => hx (hxx ▸ List.mem_cons_self pid rest)
      · exact h

theorem findPicking_setCancelFold_ne (w : World) (pids : List Nat) (x : Nat)
    (hx : x ∉ pids) :
    findPicking (setCancelFold w pids) x = findPicking w x := by
  unfold setCancelFold
  refine foldl_pres (fun w' => findPicking w' x) _ _ _ (fun b a ha => ?_)
  exact findPicking_updatePicking_ne b a x _ (fun p => rfl)
    (fun hxx => hx (hxx ▸ ha))

theorem mem_filterMap_findPicking {w : World} {l : List Nat} {q : Picking}
    (h : q ∈ l.filterMap (findPicking w)) : findPicking w q.id = some q := by
  rw [List.mem_filterMap] at h
  obtain ⟨x, _, hq⟩ := h
  have hid : q.id = x := findPicking_id hq
  rw [hid]
  exact hq

theorem lcPick_finishRevert (w : World) (oid : Nat) (rets : List Nat) (q : Nat) :
    lcPick (finishRevert w oid rets).1 q = lcPick w q :=
  lcPick_of_landedCosts_eq rfl q

theorem revertFold_keep (lid : Nat) (p : Picking)
    (hret : returnableMoves p = []) :
    ∀ (dps : List Picking) (acc : World × List Nat),
      (∀ q ∈ dps, q.id = p.id → q = p) →
      findPicking acc.1 p.id = some p →
      p.id ∈ lcPick acc.1 lid →
      findPicking ((dps.foldl (revertDonePicking lid) acc).1) p.id = some p ∧
      p.id ∈ lcPick ((dps.foldl (revertDonePicking lid) acc).1) lid := by
  intro dps
  induction dps with
  | nil => intro acc _ h1 h2; exact ⟨h1, h2⟩
  | cons q dps ih =>
    intro acc hq h1 h2
    rw [List.foldl_cons]
    have hstep : findPicking (revertDonePicking lid acc q).1 p.id = some p ∧
        p.id ∈ lcPick (revertDonePicking lid acc q).1 lid := by
      unfold revertDonePicking
      cases hcr : createReturnForPicking acc.1 q.id with
      | mk wb r =>
        have hfp : findPicking wb p.id = some p := by
          have h3 := findPicking_createReturn acc.1 q.id p.id p h1
          rw [hcr] at h3
          exact h3
        have hlw : wb.landedCosts = acc.1.landedCosts := by
          have h3 := createReturn_landedCosts acc.1 q.id
          rw [hcr] at h3
          exact h3
        have hmemwb : p.id ∈ lcPick wb lid := by
          rw [lcPick_of_landedCosts_eq hlw]
          exact h2
        cases r with
        | none => exact ⟨hfp, hmemwb⟩
        | some rid =>
          have hqp : q.id ≠ p.id := by
            intro hqid
            have hnone : createReturnForPicking acc.1 p.id = (acc.1, none) := by
              unfold createReturnForPicking
              rw [h1]
              dsimp only
              by_cases hs : p.state ≠ PickState.done
              · rw [if_pos hs]
              · rw [if_neg hs, if_pos hret]
            rw [hqid, hnone] at hcr
            simp at hcr
          dsimp only
          by_cases hin : q.id ∈ lcPick wb lid
          · rw [if_pos hin]
            refine ⟨hfp, ?_⟩
            cases hfw : findLC wb lid with
            | none =>
              exfalso
              have hempty : lcPick wb lid = [] := by
                unfold lcPick
                rw [hfw]
                rfl
              rw [hempty] at hin
              exact absurd hin (List.not_mem_nil q.id)
            | some lcw =>
              rw [lcPick_updateLC_eq wb lid
                (fun lc => { lc with pickingIds :=
                  lc.pickingIds.filter (fun y => y ≠ q.id) })
                (fun lc => rfl) lcw hfw]
              have hmem' : p.id ∈ lcw.pickingIds := by
                rw [lcPick_findLC hfw] at hmemwb
                exact hmemwb
              refine List.mem_filter.mpr ⟨hmem', ?_⟩
              simp only [decide_eq_true_eq]
              exact fun hh => hqp hh.symm
          · rw [if_neg hin]
            exact ⟨hfp, hmemwb⟩
    exact ih (revertDonePicking lid acc q)
      (fun x hx hxid => hq x (List.mem_cons_of_mem q hx) hxid) hstep.1 hstep.2

theorem lcPick_updateLC_state (w : World) (lid : Nat) (lc : LandedCost)
    (h : findLC w lid = some lc) (q : Nat) :
    lcPick (updateLC w lid (fun x => { x with state := LCState.cancel })) q =
      lcPick w q := by
  by_cases hq : q = lid
  · subst hq
    rw [lcPick_updateLC_eq w q (fun x => { x with state := LCState.cancel })
      (fun x => rfl) lc h]
    rw [lcPick_findLC h]
  · exact lcPick_updateLC_ne w lid q (fun x => { x with state := LCState.cancel })
      (fun x => rfl) hq

/-- C10: during reversal, a done receipt whose completed movements are all
scrapped or of zero quantity yields a no-return result from the per-receipt
return step — no ReturnTransaction and no error — and, because only receipts
with a created return are detached by hand, it is not detached from the
clearance document: it remains in the document's receipt set after the
reversal completes. -/
theorem C10_no_return_keeps_receipt (w : World) (oid lid : Nat) (o : Order)
    (p : Picking) (w' : World) (rets : List Nat)
    (ho : findOrder w oid = some o)
    (hped : o.pedimientoId = some lid)
    (hpk : findPicking w p.id = some p)
    (hpstate : p.state = PickState.done)
    (hmoves : ∀ m ∈ p.moves, m.state = PickState.done →
      m.scrapped = true ∨ m.quantity = 0)
    (hmem : p.id ∈ lcPick w lid)
    (hok : action_revert_pedimento w oid = Except.ok (w', rets)) :
    (createReturnForPicking w p.id).2 = none ∧ p.id ∈ lcPick w' lid := by
  have hret : returnableMoves p = [] := by
    unfold returnableMoves
    rw [List.filter_eq_nil_iff]
    intro m hm
    simp only [decide_eq_true_eq, not_and]
    intro hstate hscr
    rcases hmoves m hm hstate with h | h
    · rw [h] at hscr; cases hscr
    · rw [h]; omega
  have hc1 : createReturnForPicking w p.id = (w, none) := by
    unfold createReturnForPicking
    rw [hpk]
    dsimp only
    rw [if_neg (fun hcc => hcc hpstate), if_pos hret]
  refine ⟨by rw [hc1], ?_⟩
  cases hpre : revertPreconditionError w o with
  | some e =>
    unfold action_revert_pedimento at hok
    simp only [ho, hped, hpre] at hok
    simp at hok
  | none =>
    unfold action_revert_pedimento at hok
    simp only [ho, hped, hpre] at hok
    have hndone : p.id ∉ ((o.pickingIds.filterMap (findPicking w)).filter
        (fun x => x.state ≠ PickState.done ∧ x.state ≠ PickState.cancel)).map
          (fun x => x.id) := by
      intro hmm
      rw [List.mem_map] at hmm
      obtain ⟨q, hqf, hqid⟩ := hmm
      have hqmem := List.mem_filter.mp hqf
      have hq1 := mem_filterMap_findPicking hqmem.1
      rw [hqid, hpk] at hq1
      have hqp : p = q := Option.some.inj hq1
      have hcond := hqmem.2
      rw [← hqp] at hcond
      simp [hpstate] at hcond
    have hq2 : ∀ q ∈ (o.pickingIds.filterMap (findPicking w)).filter
        (fun x => x.state = PickState.done), q.id = p.id → q = p := by
      intro q hqf hqid
      have hq1 := mem_filterMap_findPicking (List.mem_filter.mp hqf).1
      rw [hqid, hpk] at hq1
      exact (Option.some.inj hq1).symm
    have hfp1 : findPicking (picking_action_cancel w
        (((o.pickingIds.filterMap (findPicking w)).filter
          (fun x => x.state ≠ PickState.done ∧ x.state ≠ PickState.cancel)).map
            (fun x => x.id))) p.id = some p := by
      unfold picking_action_cancel
      rw [findPicking_setCancelFold_ne _ _ _ hndone,
        findPicking_of_pickings_eq (cancelHookFold_pickings _ _), hpk]
    have hmem1 : p.id ∈ lcPick (picking_action_cancel w
        (((o.pickingIds.filterMap (findPicking w)).filter
          (fun x => x.state ≠ PickState.done ∧ x.state ≠ PickState.cancel)).map
            (fun x => x.id))) lid := by
      unfold picking_action_cancel
      rw [lcPick_of_landedCosts_eq (setCancelFold_landedCosts _ _)]
      exact lcPick_mem_cancelHookFold _ p.id lid w hndone hmem
    have hkeep := revertFold_keep lid p hret
      ((o.pickingIds.filterMap (findPicking w)).filter
        (fun x => x.state = PickState.done))
      (picking_action_cancel w
        (((o.pickingIds.filterMap (findPicking w)).filter
          (fun x => x.state ≠ PickState.done ∧ x.state ≠ PickState.cancel)).map
            (fun x => x.id)), [])
      hq2 hfp1 hmem1
    have hs2 : p.id ∈ lcPick (revertStep12 w o lid).1 lid := hkeep.2
    have hXmem : ∀ X : World,
        lcPick X lid = lcPick (revertStep12 w o lid).1 lid →
        finishRevert X oid (revertStep12 w o lid).2 = (w', rets) →
        p.id ∈ lcPick w' lid := by
      intro X hX hfin
      have hw' : w' = (finishRevert X oid (revertStep12 w o lid).2).1 := by
        rw [hfin]
      rw [hw', lcPick_finishRevert, hX]
      exact hs2
    unfold revertFinal at hok
    cases hfl : findLC (revertStep12 w o lid).1 lid with
    | none => rw [hfl] at hok; simp at hok
    | some ped2 =>
      rw [hfl] at hok
      dsimp only at hok
      split at hok
      · split at hok
        · split at hok
          · simp only [Except.ok.injEq] at hok
            exact hXmem _ (lcPick_updateLC_state _ _ ped2 hfl lid) hok
          · simp at hok
        · split at hok
          · simp only [Except.ok.injEq] at hok
            exact hXmem _ (lcPick_updateLC_state _ _ ped2 hfl lid) hok
          · simp only [Except.ok.injEq] at hok
            exact hXmem _ rfl hok
      · simp only [Except.ok.injEq] at hok
        exact hXmem _ rfl hok

/-- One exclusive order with a draft pedimento and a done receipt whose only
completed move has zero quantity. -/
def W10 : World :=
  { orders := [{ id := 1, name := "PO1", customsNumber := "15  48  3009  0001234",
                 partnerId := 5, pedimientoId := some 10, pickingIds := [100],
                 invoiceIds := [] }]
    landedCosts := [{ id := 10, name := "LC10",
                      customsNumber := "15  48  3009  0001234",
                      state := LCState.draft, pickingIds := [100],
                      costLines := false }]
    pickings := [{ id := 100, name := "WH-IN-100", state := PickState.done,
                   partnerId := some 5,
                   moves := [{ id := 1000, state := PickState.done,
                               scrapped := false, quantity := 0, productId := 7,
                               locationDestId := 3, purchaseOrderId := some 1 }] }]
    invoices := [], quants := []
    shCancelAvailable := false, nextId := 500 }

/-- `W10` after reverting order 1: the pedimento is cancelled (draft,
exclusive) but receipt 100 stays attached. -/
def W10after : World :=
  { orders := [{ id := 1, name := "PO1", customsNumber := "15  48  3009  0001234",
                 partnerId := 5, pedimientoId := none, pickingIds := [100],
                 invoiceIds := [] }]
    landedCosts := [{ id := 10, name := "LC10",
                      customsNumber := "15  48  3009  0001234",
                      state := LCState.cancel, pickingIds := [100],
                      costLines := false }]
    pickings := [{ id := 100, name := "WH-IN-100", state := PickState.done,
                   partnerId := some 5,
                   moves := [{ id := 1000, state := PickState.done,
                               scrapped := false, quantity := 0, productId := 7,
                               locationDestId := 3, purchaseOrderId := some 1 }] }]
    invoices := [], quants := []
    shCancelAvailable := false, nextId := 500 }

theorem C10_witness :
    action_revert_pedimento W10 1 = Except.ok (W10after, []) ∧
    (createReturnForPicking W10 100).2 = none ∧ 100 ∈ lcPick W10after 10 :=
  ⟨rfl,
   C10_no_return_keeps_receipt W10 1 10
     { id := 1, name := "PO1", customsNumber := "15  48  3009  0001234",
       partnerId := 5, pedimientoId := some 10, pickingIds := [100],
       invoiceIds := [] }
     { id := 100, name := "WH-IN-100", state := PickState.done,
       partnerId := some 5,
       moves := [{ id := 1000, state := PickState.done, scrapped := false,
                   quantity := 0, productId := 7, locationDestId := 3,
                   purchaseOrderId := some 1 }] }
     W10after [] rfl rfl rfl rfl (by decide) (by decide) rfl⟩

theorem lcPick_removeFromLandedCost_nondraft (w : World) (r : Picking) (q : Nat)
    (h : lcState w q ≠ some LCState.draft) :
    lcPick (removeFromLandedCost w r) q = lcPick w q := by
  unfold removeFromLandedCost
  cases hd : derivedOrder w r with
  | none => rfl
  | some po =>
    dsimp only
    cases hp : po.pedimientoId with
    | none => rfl
    | some lid0 =>
      dsimp only
      cases hfl : findLC w lid0 with
      | none => rfl
      | some lc0 =>
        dsimp only
        by_cases hc : lc0.state = LCState.draft ∧ r.id ∈ lc0.pickingIds
        · rw [if_pos hc]
          have hq : q ≠ lid0 := by
            intro hqq
            subst hqq
            apply h
            unfold lcState
            rw [hfl]
            simp [hc.1]
          exact lcPick_updateLC_ne w lid0 q
            (fun lc => { lc with pickingIds :=
              lc.pickingIds.filter (fun y => y ≠ r.id) })
            (fun lc => rfl) hq
        · rw [if_neg hc]

theorem lcPick_cancelHookFold_nondraft (pids : List Nat) (q : Nat) :
    ∀ w : World, lcState w q ≠ some LCState.draft →
      lcPick (cancelHookFold w pids) q = lcPick w q := by
  induction pids with
  | nil => intro w _; rfl
  | cons pid rest ih =>
    intro w h
    have hstep : cancelHookFold w (pid :: rest) =
        cancelHookFold (match findPicking w pid with
          | some p => removeFromLandedCost w p
          | none => w) rest := rfl
    rw [hstep]
    cases hp : findPicking w pid with
    | none => exact ih w h
    | some r =>
      have h1 : lcPick (removeFromLandedCost w r) q = lcPick w q :=
        lcPick_removeFromLandedCost_nondraft w r q h
      have h2 : lcState (removeFromLandedCost w r) q ≠ some LCState.draft := by
        rw [lcState_eq_of_lcCoreAt_eq (lcCoreAt_removeFromLandedCost w r q)]
        exact h
      rw [ih (removeFromLandedCost w r) h2, h1]

/-- C2 (amended): the automatic cancel/delete hooks detach a receipt from a
clearance document only while that document is `draft`: on a `done` or
`cancelled` document, neither `action_cancel` nor `unlink` changes the
document's receipt set.  (The reversal orchestrator, by contrast, detaches
receipts it has reversed regardless of the document's state — see the
counterexample.) -/
theorem C2_hooks_detach_only_draft (w : World) (pids : List Nat) (q : Nat)
    (h : lcState w q ≠ some LCState.draft) :
    lcPick (picking_action_cancel w pids) q = lcPick w q ∧
    lcPick (picking_unlink w pids) q = lcPick w q := by
  have hch : lcPick (cancelHookFold w pids) q = lcPick w q :=
    lcPick_cancelHookFold_nondraft pids q w h
  constructor
  · unfold picking_action_cancel
    rw [lcPick_of_landedCosts_eq (setCancelFold_landedCosts _ _), hch]
  · exact hch

/-- Two orders sharing a validated pedimento whose done receipt is fully
returnable; reverting one order detaches the receipt from the `done`
document. -/
def C2w : World :=
  { orders := [{ id := 1, name := "PO1", customsNumber := "15  48  3009  0001234",
                 partnerId := 5, pedimientoId := some 10, pickingIds := [100],
                 invoiceIds := [] },
               { id := 2, name := "PO2", customsNumber := "15  48  3009  0001234",
                 partnerId := 5, pedimientoId := some 10, pickingIds := [],
                 invoiceIds := [] }]
    landedCosts := [{ id := 10, name := "LC10",
                      customsNumber := "15  48  3009  0001234",
                      state := LCState.done, pickingIds := [100],
                      costLines := false }]
    pickings := [{ id := 100, name := "WH-IN-100", state := PickState.done,
                   partnerId := some 5,
                   moves := [{ id := 1000, state := PickState.done,
                               scrapped := false, quantity := 5, productId := 7,
                               locationDestId := 3, purchaseOrderId := some 1 }] }]
    invoices := []
    quants := [{ productId := 7, locationId := 3, quantity := 5 }]
    shCancelAvailable := false, nextId := 600 }

/-- `C2w` after reverting order 1: receipt 100 was detached although the
document is (and stays) `done`. -/
def C2wAfter : World :=
  { orders := [{ id := 1, name := "PO1", customsNumber := "15  48  3009  0001234",
                 partnerId := 5, pedimientoId := none, pickingIds := [100],
                 invoiceIds := [] },
               { id := 2, name := "PO2", customsNumber := "15  48  3009  0001234",
                 partnerId := 5, pedimientoId := some 10, pickingIds := [],
                 invoiceIds := [] }]
    landedCosts := [{ id := 10, name := "LC10",
                      customsNumber := "15  48  3009  0001234",
                      state := LCState.done, pickingIds := [],
                      costLines := false }]
    pickings := [{ id := 100, name := "WH-IN-100", state := PickState.done,
                   partnerId := some 5,
                   moves := [{ id := 1000, state := PickState.done,
                               scrapped := false, quantity := 5, productId := 7,
                               locationDestId := 3, purchaseOrderId := some 1 }] },
                 { id := 600, name := "RET600", state := PickState.done,
                   partnerId := some 5, moves := [] }]
    invoices := []
    quants := [{ productId := 7, locationId := 3, quantity := 5 }]
    shCancelAvailable := false, nextId := 601 }

/-- C2 (counterexample): the reversal orchestrator removes the done receipt
100 from the receipt set of clearance document 10 even though that document
is in state `done` — contradicting the claim that receipts are removed only
while the document is draft, for every operation of the core. -/
theorem C2_counterexample :
    lcState C2w 10 = some LCState.done ∧
    100 ∈ lcPick C2w 10 ∧
    action_revert_pedimento C2w 1 = Except.ok (C2wAfter, [600]) ∧
    100 ∉ lcPick C2wAfter 10 := by
  refine ⟨rfl, by decide, rfl, by decide⟩

/-- A cancel/delete hook run against a `done` document. -/
def W2b : World :=
  { orders := [{ id := 1, name := "PO1", customsNumber := "15  48  3009  0001234",
                 partnerId := 5, pedimientoId := some 10, pickingIds := [100],
                 invoiceIds := [] }]
    landedCosts := [{ id := 10, name := "LC10",
                      customsNumber := "15  48  3009  0001234",
                      state := LCState.done, pickingIds := [100],
                      costLines := false }]
    pickings := [{ id := 100, name := "WH-IN-100", state := PickState.assigned,
                   partnerId := some 5,
                   moves := [{ id := 1000, state := PickState.assigned,
                               scrapped := false, quantity := 5, productId := 7,
                               locationDestId := 3, purchaseOrderId := some 1 }] }]
    invoices := [], quants := []
    shCancelAvailable := false, nextId := 700 }

theorem C2_witness :
    lcState W2b 10 ≠ some LCState.draft ∧
    (lcPick (picking_action_cancel W2b [100]) 10 = lcPick W2b 10 ∧
     lcPick (picking_unlink W2b [100]) 10 = lcPick W2b 10) :=
  ⟨by decide, C2_hooks_detach_only_draft W2b [100] 10 (by decide)⟩

theorem bulk_severity (oracle : Nat → Option String) (w : World)
    (orderIds : List Nat) (pr : World × Report)
    (h : action_validate_pedimentos_bulk oracle w orderIds = some pr) :
    pr.2.severity = severityOf pr.2.validated pr.2.errors := by
  unfold action_validate_pedimentos_bulk at h
  by_cases hids : orderIds = []
  · rw [if_pos hids] at h; cases h
  · rw [if_neg hids] at h
    dsimp only at h
    simp only [Option.some.injEq] at h
    subst h
    rfl

theorem severityOf_spec (v : List Nat) (e : List (Nat × String)) :
    (severityOf v e = Severity.success ↔ v ≠ [] ∧ e = []) ∧
    (severityOf v e = Severity.warning ↔
      (v ≠ [] ∧ e ≠ []) ∨ (v = [] ∧ e = [])) ∧
    (severityOf v e = Severity.danger ↔ v = [] ∧ e ≠ []) := by
  unfold severityOf
  by_cases hv : v = [] <;> by_cases he : e = [] <;> simp [hv, he]

/-- An order without a clearance number: the bulk run validates nothing and
records no error. -/
def C7w : World :=
  { orders := [{ id := 1, name := "PO1", customsNumber := "", partnerId := 5,
                 pedimientoId := none, pickingIds := [], invoiceIds := [] }]
    landedCosts := [], pickings := [], invoices := [], quants := []
    shCancelAvailable := false, nextId := 800 }

/-- The report the bulk run produces on `C7w`. -/
def C7report : Report :=
  { validated := [], withoutCustoms := [1], withoutPedimento := [],
    alreadyValidated := [], errors := [], severity := Severity.warning }

/-- C7 (counterexample): a batch in which no document validated and no
per-document error occurred (a single order without a clearance number)
yields severity `warning`, not `danger` — contradicting the claim's
"danger otherwise". -/
theorem C7_counterexample :
    action_validate_pedimentos_bulk (fun _ => none) C7w [1] =
      some (C7w, C7report) ∧
    C7report.validated = [] ∧ C7report.errors = [] ∧
    C7report.severity = Severity.warning ∧
    C7report.severity ≠ Severity.danger :=
  ⟨rfl, rfl, rfl, rfl, by decide⟩

/-- C7 (amended): the bulk report's severity is `success` iff at least one
document validated and there were zero per-document errors; `warning` iff
the outcome is mixed (some validated, some errors) OR nothing validated and
there were zero errors (e.g. every order was skipped); `danger` iff nothing
validated and at least one error occurred. -/
theorem C7_severity_amended (oracle : Nat → Option String) (w : World)
    (orderIds : List Nat) (w' : World) (r : Report)
    (h : action_validate_pedimentos_bulk oracle w orderIds = some (w', r)) :
    (r.severity = Severity.success ↔ r.validated ≠ [] ∧ r.errors = []) ∧
    (r.severity = Severity.warning ↔
      (r.validated ≠ [] ∧ r.errors ≠ []) ∨ (r.validated = [] ∧ r.errors = [])) ∧
    (r.severity = Severity.danger ↔ r.validated = [] ∧ r.errors ≠ []) := by
  have hs : r.severity = severityOf r.validated r.errors :=
    bulk_severity oracle w orderIds (w', r) h
  rw [hs]
  exact severityOf_spec _ _

theorem C7_witness :
    action_validate_pedimentos_bulk (fun _ => none) C7w [1] =
      some (C7w, C7report) ∧
    ((C7report.severity = Severity.success ↔
        C7report.validated ≠ [] ∧ C7report.errors = []) ∧
     (C7report.severity = Severity.warning ↔
        (C7report.validated ≠ [] ∧ C7report.errors ≠ []) ∨
        (C7report.validated = [] ∧ C7report.errors = [])) ∧
     (C7report.severity = Severity.danger ↔
        C7report.validated = [] ∧ C7report.errors ≠ [])) :=
  ⟨rfl, C7_severity_amended (fun _ => none) C7w [1] C7w C7report rfl⟩

theorem mem_dedupAux (x : Nat) : ∀ (l seen : List Nat),
    x ∈ dedupAux seen l ↔ x ∈ l ∧ x ∉ seen := by
  intro l
  induction l with
  | nil => intro seen; simp [dedupAux]
  | cons a l ih =>
    intro seen
    unfold dedupAux
    by_cases ha : a ∈ seen
    · rw [if_pos ha, ih]
      constructor
      · rintro ⟨h1, h2⟩; exact ⟨List.mem_cons_of_mem a h1, h2⟩
      · rintro ⟨h1, h2⟩
        rcases List.mem_cons.mp h1 with h | h
        · subst h; exact absurd ha h2
        · exact ⟨h, h2⟩
    · rw [if_neg ha]
      constructor
      · intro h1
        rcases List.mem_cons.mp h1 with h | h
        · subst h; exact ⟨List.mem_cons_self _ _, ha⟩
        · rw [ih] at h
          exact ⟨List.mem_cons_of_mem a h.1,
            fun hs => h.2 (List.mem_cons_of_mem a hs)⟩
      · rintro ⟨h1, h2⟩
        rcases List.mem_cons.mp h1 with h | h
        · subst h; exact List.mem_cons_self _ _
        · by_cases hxa : x = a
          · subst hxa; exact List.mem_cons_self _ _
          · apply List.mem_cons_of_mem
            rw [ih]
            exact ⟨h, fun hs => (List.mem_cons.mp hs).elim hxa h2⟩

theorem nodup_dedupAux : ∀ (l seen : List Nat), (dedupAux seen l).Nodup := by
  intro l
  induction l with
  | nil => intro seen; simp [dedupAux]
  | cons a l ih =>
    intro seen
    unfold dedupAux
    by_cases ha : a ∈ seen
    · rw [if_pos ha]; exact ih seen
    · rw [if_neg ha]
      rw [List.nodup_cons]
      refine ⟨fun hmem => ?_, ih (a :: seen)⟩
      rw [mem_dedupAux] at hmem
      exact hmem.2 (List.mem_cons_self a seen)

theorem mem_dedupFirst (x : Nat) (l : List Nat) : x ∈ dedupFirst l ↔ x ∈ l := by
  unfold dedupFirst
  rw [mem_dedupAux]
  simp

theorem nodup_dedupFirst (l : List Nat) : (dedupFirst l).Nodup :=
  nodup_dedupAux l []

theorem mem_pedimentosToValidate (w : World) (orders : List Order) (lid : Nat) :
    lid ∈ pedimentosToValidate w orders ↔
      ∃ o ∈ orders, o.pedimientoId = some lid ∧
        lcState w lid = some LCState.draft := by
  unfold pedimentosToValidate
  rw [mem_dedupFirst, List.mem_filterMap]
  constructor
  · rintro ⟨o, ho, hp⟩
    have hf := List.mem_filter.mp ho
    refine ⟨o, hf.1, hp, ?_⟩
    have hd := hf.2
    unfold hasDraftPed at hd
    rw [hp] at hd
    simpa using hd
  · rintro ⟨o, ho, hp, hs⟩
    refine ⟨o, List.mem_filter.mpr ⟨ho, ?_⟩, hp⟩
    unfold hasDraftPed
    rw [hp]
    simpa using hs

theorem mem_append_pair_ne {e : List (Nat × String)} {lid m : Nat}
    {msg x : String} (hm : m ≠ lid) :
    ((lid, msg) ∈ e ++ [(m, x)]) ↔ (lid, msg) ∈ e := by
  rw [List.mem_append]
  constructor
  · rintro (h | h)
    · exact h
    · exfalso
      rw [List.mem_singleton] at h
      exact hm (congrArg Prod.fst h).symm
  · exact fun h => Or.inl h

theorem mem_append_one_ne {v : List Nat} {lid m : Nat} (hm : m ≠ lid) :
    (lid ∈ v ++ [m]) ↔ lid ∈ v := by
  rw [List.mem_append]
  constructor
  · rintro (h | h)
    · exact h
    · exact absurd (List.mem_singleton.mp h) (fun hh => hm hh.symm)
  · exact fun h => Or.inl h

theorem findLC_isSome_processPedimento (oracle : Nat → Option String)
    (acc : World × List Nat × List (Nat × String)) (m lid : Nat)
    (h : (findLC acc.1 lid).isSome = true) :
    (findLC (processPedimento oracle acc m).1 lid).isSome = true := by
  unfold processPedimento
  cases hf : findLC acc.1 m with
  | none => exact h
  | some ped =>
    dsimp only
    by_cases hpk : ped.pickingIds = []
    · rw [if_pos hpk]; exact h
    · rw [if_neg hpk]
      cases oracle m with
      | some msg => exact h
      | none =>
        rw [findLC_updateLC acc.1 m lid
          (fun lc => { lc with state := LCState.done }) (fun lc => rfl)]
        rw [Option.isSome_iff_exists] at h
        obtain ⟨lc, hlc⟩ := h
        rw [hlc]
        rfl

theorem processFold_untouched (oracle : Nat → Option String) (lid : Nat) :
    ∀ (tv : List Nat) (acc : World × List Nat × List (Nat × String)),
      lid ∉ tv →
      findLC ((tv.foldl (processPedimento oracle) acc).1) lid = findLC acc.1 lid ∧
      (lid ∈ (tv.foldl (processPedimento oracle) acc).2.1 ↔ lid ∈ acc.2.1) ∧
      (∀ msg, ((lid, msg) ∈ (tv.foldl (processPedimento oracle) acc).2.2 ↔
        (lid, msg) ∈ acc.2.2)) := by
  intro tv
  induction tv with
  | nil => intro acc _; exact ⟨rfl, Iff.rfl, fun _ => Iff.rfl⟩
  | cons m tv ih =>
    intro acc hl
    have hm : m ≠ lid := fun hc => hl (hc ▸ List.mem_cons_self m tv)
    have hl' : lid ∉ tv := fun hc => hl (List.mem_cons_of_mem m hc)
    rw [List.foldl_cons]
    have hstep : findLC (processPedimento oracle acc m).1 lid = findLC acc.1 lid ∧
        (lid ∈ (processPedimento oracle acc m).2.1 ↔ lid ∈ acc.2.1) ∧
        (∀ msg, ((lid, msg) ∈ (processPedimento oracle acc m).2.2 ↔
          (lid, msg) ∈ acc.2.2)) := by
      unfold processPedimento
      cases hf : findLC acc.1 m with
      | none => exact ⟨rfl, Iff.rfl, fun _ => Iff.rfl⟩
      | some ped =>
        dsimp only
        by_cases hpk : ped.pickingIds = []
        · rw [if_pos hpk]
          exact ⟨rfl, Iff.rfl, fun msg => mem_append_pair_ne hm⟩
        · rw [if_neg hpk]
          cases oracle m with
          | some msg2 => exact ⟨rfl, Iff.rfl, fun msg => mem_append_pair_ne hm⟩
          | none =>
            refine ⟨?_, mem_append_one_ne hm, fun msg => Iff.rfl⟩
            exact findLC_updateLC_ne acc.1 m lid
              (fun lc => { lc with state := LCState.done }) (fun lc => rfl)
              (fun hc => hm hc.symm)
    obtain ⟨s1, s2, s3⟩ := ih (processPedimento oracle acc m) hl'
    exact ⟨s1.trans hstep.1, s2.trans hstep.2.1,
      fun msg => (s3 msg).trans (hstep.2.2 msg)⟩

theorem processFold_mono (oracle : Nat → Option String) :
    ∀ (tv : List Nat) (acc : World × List Nat × List (Nat × String)),
      (∀ x, x ∈ acc.2.1 → x ∈ (tv.foldl (processPedimento oracle) acc).2.1) ∧
      (∀ e, e ∈ acc.2.2 → e ∈ (tv.foldl (processPedimento oracle) acc).2.2) := by
  intro tv
  induction tv with
  | nil => intro acc; exact ⟨fun x h => h, fun e h => h⟩
  | cons m tv ih =>
    intro acc
    rw [List.foldl_cons]
    have hstep : (∀ x, x ∈ acc.2.1 → x ∈ (processPedimento oracle acc m).2.1) ∧
        (∀ e, e ∈ acc.2.2 → e ∈ (processPedimento oracle acc m).2.2) := by
      unfold processPedimento
      cases hf : findLC acc.1 m with
      | none => exact ⟨fun x h => h, fun e h => h⟩
      | some ped =>
        dsimp only
        by_cases hpk : ped.pickingIds = []
        · rw [if_pos hpk]
          exact ⟨fun x h => h, fun e h => List.mem_append_left _ h⟩
        · rw [if_neg hpk]
          cases oracle m with
          | some msg => exact ⟨fun x h => h, fun e h => List.mem_append_left _ h⟩
          | none => exact ⟨fun x h => List.mem_append_left _ h, fun e h => h⟩
    obtain ⟨i1, i2⟩ := ih (processPedimento oracle acc m)
    exact ⟨fun x h => i1 x (hstep.1 x h), fun e h => i2 e (hstep.2 e h)⟩

theorem processFold_progress (oracle : Nat → Option String) (lid : Nat) :
    ∀ (tv : List Nat) (acc : World × List Nat × List (Nat × String)),
      lid ∈ tv → (findLC acc.1 lid).isSome = true →
      lid ∈ (tv.foldl (processPedimento oracle) acc).2.1 ∨
      ∃ msg, (lid, msg) ∈ (tv.foldl (processPedimento oracle) acc).2.2 := by
  intro tv
  induction tv with
  | nil => intro acc h; cases h
  | cons m tv ih =>
    intro acc hmem hsome
    rw [List.foldl_cons]
    by_cases hm : m = lid
    · subst hm
      rw [Option.isSome_iff_exists] at hsome
      obtain ⟨ped, hped⟩ := hsome
      have hsplit : m ∈ (processPedimento oracle acc m).2.1 ∨
          ∃ msg, (m, msg) ∈ (processPedimento oracle acc m).2.2 := by
        unfold processPedimento
        rw [hped]
        dsimp only
        by_cases hpk : ped.pickingIds = []
        · rw [if_pos hpk]
          exact Or.inr ⟨noReceiptsMsg, by simp⟩
        · rw [if_neg hpk]
          cases oracle m with
          | some msg => exact Or.inr ⟨msg, by simp⟩
          | none => exact Or.inl (by simp)
      rcases hsplit with h | ⟨msg, h⟩
      · exact Or.inl ((processFold_mono oracle tv _).1 m h)
      · exact Or.inr ⟨msg, (processFold_mono oracle tv _).2 _ h⟩
    · have hmem' : lid ∈ tv := by
        rcases List.mem_cons.mp hmem with h | h
        · exact absurd h.symm hm
        · exact h
      exact ih (processPedimento oracle acc m) hmem'
        (findLC_isSome_processPedimento oracle acc m lid hsome)

theorem processPedimento_noReceipts (oracle : Nat → Option String)
    (acc : World × List Nat × List (Nat × String)) (lid : Nat)
    (ped : LandedCost) (hf : findLC acc.1 lid = some ped)
    (hpick : ped.pickingIds = []) :
    processPedimento oracle acc lid =
      (acc.1, acc.2.1, acc.2.2 ++ [(lid, noReceiptsMsg)]) := by
  unfold processPedimento
  rw [hf]
  dsimp only
  rw [if_pos hpick]

/-- C8: in a bulk validation run, (i) the list of documents to process — the
unique draft pedimentos of the batch — is duplicate-free and contains a
document iff some order of the batch references it while it is `draft`
(each unique document is processed exactly once however many orders
reference it); (ii) a processed document with no attached receipts gets the
per-document "no receipts" error, is not validated, and its state is left
untouched (skipped); (iii) every processed document ends up either validated
or with a recorded per-document error — one document's failure never aborts
the rest of the batch. -/
theorem C8_bulk_dedup_and_resilience (oracle : Nat → Option String)
    (w w' : World) (orderIds : List Nat) (r : Report)
    (h : action_validate_pedimentos_bulk oracle w orderIds = some (w', r)) :
    (pedimentosToValidate w (orderIds.filterMap (findOrder w))).Nodup ∧
    (∀ lid, lid ∈ pedimentosToValidate w (orderIds.filterMap (findOrder w)) ↔
      ∃ o ∈ orderIds.filterMap (findOrder w),
        o.pedimientoId = some lid ∧ lcState w lid = some LCState.draft) ∧
    (∀ lid ∈ pedimentosToValidate w (orderIds.filterMap (findOrder w)),
      lcPick w lid = [] →
        (lid, noReceiptsMsg) ∈ r.errors ∧ lid ∉ r.validated ∧
        lcState w' lid = lcState w lid) ∧
    (∀ lid ∈ pedimentosToValidate w (orderIds.filterMap (findOrder w)),
      lid ∈ r.validated ∨ ∃ msg, (lid, msg) ∈ r.errors) := by
  by_cases hids : orderIds = []
  · unfold action_validate_pedimentos_bulk at h
    rw [if_pos hids] at h
    cases h
  · have hinv := h
    unfold action_validate_pedimentos_bulk at hinv
    rw [if_neg hids] at hinv
    dsimp only at hinv
    simp only [Option.some.injEq] at hinv
    have hw' : ((pedimentosToValidate w (orderIds.filterMap (findOrder w))).foldl
        (processPedimento oracle) (w, [], [])).1 = w' := by
      have := congrArg Prod.fst hinv
      simpa using this
    have hr := congrArg Prod.snd hinv
    dsimp only at hr
    have hval : r.validated = ((pedimentosToValidate w
        (orderIds.filterMap (findOrder w))).foldl
          (processPedimento oracle) (w, [], [])).2.1 := by
      rw [← hr]
    have herr : r.errors = ((pedimentosToValidate w
        (orderIds.filterMap (findOrder w))).foldl
          (processPedimento oracle) (w, [], [])).2.2 := by
      rw [← hr]
    refine ⟨nodup_dedupFirst _, fun lid => mem_pedimentosToValidate w _ lid,
      ?_, ?_⟩
    · intro lid hmem hpick
      obtain ⟨l1, l2, htv⟩ := List.append_of_mem hmem
      have hnd : (l1 ++ lid :: l2).Nodup := htv ▸ nodup_dedupFirst _
      have hlid2 : lid ∉ l2 := (List.nodup_cons.mp hnd.of_append_right).1
      have hdisj := List.disjoint_of_nodup_append hnd
      have hlid1 : lid ∉ l1 := fun hc => hdisj hc (List.mem_cons_self lid l2)
      have hdraft : lcState w lid = some LCState.draft := by
        obtain ⟨o, _, _, hs⟩ := (mem_pedimentosToValidate w _ lid).mp hmem
        exact hs
      obtain ⟨ped, hped⟩ : ∃ ped, findLC w lid = some ped := by
        unfold lcState at hdraft
        cases hf : findLC w lid with
        | none => rw [hf] at hdraft; cases hdraft
        | some x => exact ⟨x, rfl⟩
      have hpedpick : ped.pickingIds = [] := by
        rw [lcPick_findLC hped] at hpick
        exact hpick
      have hfold : (pedimentosToValidate w
          (orderIds.filterMap (findOrder w))).foldl (processPedimento oracle)
            (w, [], []) =
          l2.foldl (processPedimento oracle)
            (processPedimento oracle
              (l1.foldl (processPedimento oracle) (w, [], [])) lid) := by
        rw [htv, List.foldl_append, List.foldl_cons]
      have hA := processFold_untouched oracle lid l1 (w, [], []) hlid1
      have hstep : processPedimento oracle
          (l1.foldl (processPedimento oracle) (w, [], [])) lid =
          ((l1.foldl (processPedimento oracle) (w, [], [])).1,
           (l1.foldl (processPedimento oracle) (w, [], [])).2.1,
           (l1.foldl (processPedimento oracle) (w, [], [])).2.2 ++
             [(lid, noReceiptsMsg)]) :=
        processPedimento_noReceipts oracle _ lid ped (hA.1.trans hped) hpedpick
      have hB := processFold_untouched oracle lid l2
        (processPedimento oracle
          (l1.foldl (processPedimento oracle) (w, [], [])) lid) hlid2
      refine ⟨?_, ?_, ?_⟩
      · rw [herr, hfold]
        rw [hB.2.2 noReceiptsMsg, hstep]
        simp
      · rw [hval, hfold]
        rw [hB.2.1, hstep]
        intro hcon
        have := (hA.2.1).mp (by simpa using hcon)
        simp at this
      · have hfw : findLC w' lid = findLC w lid := by
          rw [← hw', hfold, hB.1, hstep]
          dsimp only
          rw [hA.1]
        unfold lcState
        rw [hfw]
    · intro lid hmem
      have hdraft : lcState w lid = some LCState.draft := by
        obtain ⟨o, _, _, hs⟩ := (mem_pedimentosToValidate w _ lid).mp hmem
        exact hs
      have hsome : (findLC w lid).isSome = true := by
        unfold lcState at hdraft
        cases hf : findLC w lid with
        | none => rw [hf] at hdraft; cases hdraft
        | some x => rfl
      have hp := processFold_progress oracle lid
        (pedimentosToValidate w (orderIds.filterMap (findOrder w)))
        (w, [], []) hmem hsome
      rcases hp with hp | ⟨msg, hp⟩
      · exact Or.inl (by rw [hval]; exact hp)
      · exact Or.inr ⟨msg, by rw [herr]; exact hp⟩

/-- Three orders: two share one draft pedimento, one has no clearance
number. -/
def W8 : World :=
  { orders := [{ id := 1, name := "PO1", customsNumber := "15  48  3009  0001234",
                 partnerId := 5, pedimientoId := some 20, pickingIds := [300],
                 invoiceIds := [] },
               { id := 2, name := "PO2", customsNumber := "15  48  3009  0001234",
                 partnerId := 5, pedimientoId := some 20, pickingIds := [],
                 invoiceIds := [] },
               { id := 3, name := "PO3", customsNumber := "", partnerId := 6,
                 pedimientoId := none, pickingIds := [], invoiceIds := [] }]
    landedCosts := [{ id := 20, name := "LC20",
                      customsNumber := "15  48  3009  0001234",
                      state := LCState.draft, pickingIds := [300],
                      costLines := false }]
    pickings := [{ id := 300, name := "WH-IN-300", state := PickState.done,
                   partnerId := some 5, moves := [] }]
    invoices := [], quants := []
    shCancelAvailable := false, nextId := 900 }

/-- `W8` after the bulk run: the shared pedimento was validated once. -/
def W8after : World :=
  { orders := [{ id := 1, name := "PO1", customsNumber := "15  48  3009  0001234",
                 partnerId := 5, pedimientoId := some 20, pickingIds := [300],
                 invoiceIds := [] },
               { id := 2, name := "PO2", customsNumber := "15  48  3009  0001234",
                 partnerId := 5, pedimientoId := some 20, pickingIds := [],
                 invoiceIds := [] },
               { id := 3, name := "PO3", customsNumber := "", partnerId := 6,
                 pedimientoId := none, pickingIds := [], invoiceIds := [] }]
    landedCosts := [{ id := 20, name := "LC20",
                      customsNumber := "15  48  3009  0001234",
                      state := LCState.done, pickingIds := [300],
                      costLines := false }]
    pickings := [{ id := 300, name := "WH-IN-300", state := PickState.done,
                   partnerId := some 5, moves := [] }]
    invoices := [], quants := []
    shCancelAvailable := false, nextId := 900 }

/-- The report of the bulk run on `W8`. -/
def W8report : Report :=
  { validated := [20], withoutCustoms := [3], withoutPedimento := [],
    alreadyValidated := [], errors := [], severity := Severity.success }

theorem C8_witness :
    action_validate_pedimentos_bulk (fun _ => none) W8 [1, 2, 3] =
      some (W8after, W8report) ∧
    ((pedimentosToValidate W8 ([1, 2, 3].filterMap (findOrder W8))).Nodup ∧
     (∀ lid, lid ∈ pedimentosToValidate W8 ([1, 2, 3].filterMap (findOrder W8)) ↔
       ∃ o ∈ [1, 2, 3].filterMap (findOrder W8),
         o.pedimientoId = some lid ∧ lcState W8 lid = some LCState.draft) ∧
     (∀ lid ∈ pedimentosToValidate W8 ([1, 2, 3].filterMap (findOrder W8)),
       lcPick W8 lid = [] →
         (lid, noReceiptsMsg) ∈ W8report.errors ∧ lid ∉ W8report.validated ∧
         lcState W8after lid = lcState W8 lid) ∧
     (∀ lid ∈ pedimentosToValidate W8 ([1, 2, 3].filterMap (findOrder W8)),
       lid ∈ W8report.validated ∨ ∃ msg, (lid, msg) ∈ W8report.errors)) :=
  ⟨rfl, C8_bulk_dedup_and_resilience (fun _ => none) W8 W8after [1, 2, 3]
    W8report rfl⟩

theorem validationPass_append_none (w : World) (l1 l2 : List Order)
    (h : ∀ o ∈ l1, orderValidationError w o = none) :
    validationPass w (l1 ++ l2) = validationPass w l2 := by
  induction l1 with
  | nil => rfl
  | cons o l ih =>
    have ho := h o (List.mem_cons_self o l)
    simp only [List.cons_append, validationPass, ho]
    exact ih (fun o' ho' => h o' (List.mem_cons_of_mem o ho'))

/-- C9: invoking the reversal orchestrator on an order that has no clearance
document reference fails with the dedicated validation error at once — the
first guard of `action_revert_pedimento`, before any precondition check or
mutation (an error carries no successor world) — it is not a silent no-op. -/
theorem C9_revert_without_document (w : World) (oid : Nat) (o : Order)
    (ho : findOrder w oid = some o) (hped : o.pedimientoId = none) :
    action_revert_pedimento w oid = Except.error Err.noPedimento := by
  simp [action_revert_pedimento, ho, hped]

/-- A world with one order that has no pedimento reference. -/
def W9 : World :=
  { orders := [{ id := 1, name := "PO1", customsNumber := "", partnerId := 1,
                 pedimientoId := none, pickingIds := [], invoiceIds := [] }]
    landedCosts := [], pickings := [], invoices := [], quants := []
    shCancelAvailable := false, nextId := 100 }

theorem C9_witness :
    (∃ o, findOrder W9 1 = some o ∧ o.pedimientoId = none) ∧
    action_revert_pedimento W9 1 = Except.error Err.noPedimento :=
  ⟨⟨{ id := 1, name := "PO1", customsNumber := "", partnerId := 1,
      pedimientoId := none, pickingIds := [], invoiceIds := [] }, rfl, rfl⟩,
   C9_revert_without_document W9 1
     { id := 1, name := "PO1", customsNumber := "", partnerId := 1,
       pedimientoId := none, pickingIds := [], invoiceIds := [] } rfl rfl⟩

/-- C3: in any batch being confirmed, an order that carries a clearance
number, has no document reference yet, and whose number is already borne by
a `done` clearance document makes the whole confirmation fail with the
conflict error during the validation pass (provided no earlier order of the
batch already failed validation, in which case that earlier error is raised
instead — the pass is fail-fast).  The error carries no successor world:
nothing is mutated and no new clearance document is created. -/
theorem C3_confirm_conflict (w : World) (pre post : List Nat) (oid : Nat)
    (o : Order) (lc : LandedCost)
    (hpre : ∀ o' ∈ pre.filterMap (findOrder w), orderValidationError w o' = none)
    (ho : findOrder w oid = some o)
    (hnum : o.customsNumber ≠ "")
    (hnoped : o.pedimientoId = none)
    (hdone : searchLC w o.customsNumber LCState.done = some lc) :
    button_confirm w (pre ++ oid :: post) =
      Except.error (Err.conflictError o.customsNumber lc.name) := by
  have herr : orderValidationError w o =
      some (Err.conflictError o.customsNumber lc.name) := by
    simp [orderValidationError, hnum, hnoped, hdone]
  unfold button_confirm
  rw [List.filterMap_append]
  rw [validationPass_append_none w _ _ hpre]
  simp [validationPass, ho, herr]

/-- One order whose number is carried by a validated pedimento. -/
def W3 : World :=
  { orders := [{ id := 1, name := "PO1", customsNumber := "15  48  3009  0001234",
                 partnerId := 5, pedimientoId := none, pickingIds := [],
                 invoiceIds := [] }]
    landedCosts := [{ id := 10, name := "LC10",
                      customsNumber := "15  48  3009  0001234",
                      state := LCState.done, pickingIds := [100],
                      costLines := false }]
    pickings := [], invoices := [], quants := []
    shCancelAvailable := false, nextId := 100 }

theorem C3_witness :
    button_confirm W3 ([] ++ 1 :: []) =
      Except.error (Err.conflictError "15  48  3009  0001234" "LC10") :=
  C3_confirm_conflict W3 [] [] 1
    { id := 1, name := "PO1", customsNumber := "15  48  3009  0001234",
      partnerId := 5, pedimientoId := none, pickingIds := [], invoiceIds := [] }
    { id := 10, name := "LC10", customsNumber := "15  48  3009  0001234",
      state := LCState.done, pickingIds := [100], costLines := false }
    (by simp) rfl (by decide) rfl rfl

/-- C6: in any batch being confirmed, an order that carries a clearance
number and no document reference, whose number is borne by no `done`
document but by a `draft` document whose attached receipts' partners are
non-empty and exclude the order's partner, makes the whole confirmation fail
with the party-mismatch error during the validation pass (provided no
earlier order of the batch already failed validation).  The error carries no
successor world, so the order's document reference remains unset. -/
theorem C6_confirm_party_mismatch (w : World) (pre post : List Nat) (oid : Nat)
    (o : Order) (lc : LandedCost)
    (hpre : ∀ o' ∈ pre.filterMap (findOrder w), orderValidationError w o' = none)
    (ho : findOrder w oid = some o)
    (hnum : o.customsNumber ≠ "")
    (hnoped : o.pedimientoId = none)
    (hnodone : searchLC w o.customsNumber LCState.done = none)
    (hdraft : searchLC w o.customsNumber LCState.draft = some lc)
    (hne : lcPartners w lc ≠ [])
    (hmem : o.partnerId ∉ lcPartners w lc) :
    button_confirm w (pre ++ oid :: post) =
      Except.error (Err.partyMismatchError o.customsNumber lc.name
        (joinComma ((lcPartners w lc).map toString))) := by
  have herr : orderValidationError w o =
      some (Err.partyMismatchError o.customsNumber lc.name
        (joinComma ((lcPartners w lc).map toString))) := by
    simp [orderValidationError, hnum, hnoped, hnodone, hdraft, hne, hmem]
  unfold button_confirm
  rw [List.filterMap_append]
  rw [validationPass_append_none w _ _ hpre]
  simp [validationPass, ho, herr]

/-- One order whose number is carried by a draft pedimento whose attached
receipt belongs to a different partner. -/
def W6 : World :=
  { orders := [{ id := 1, name := "PO1", customsNumber := "15  48  3009  0001234",
                 partnerId := 5, pedimientoId := none, pickingIds := [],
                 invoiceIds := [] }]
    landedCosts := [{ id := 10, name := "LC10",
                      customsNumber := "15  48  3009  0001234",
                      state := LCState.draft, pickingIds := [100],
                      costLines := false }]
    pickings := [{ id := 100, name := "WH-IN-100", state := PickState.done,
                   partnerId := some 9, moves := [] }]
    invoices := [], quants := []
    shCancelAvailable := false, nextId := 200 }

theorem C6_witness :
    button_confirm W6 ([] ++ 1 :: []) =
      Except.error (Err.partyMismatchError "15  48  3009  0001234" "LC10"
        (joinComma ((lcPartners W6
          { id := 10, name := "LC10", customsNumber := "15  48  3009  0001234",
            state := LCState.draft, pickingIds := [100],
            costLines := false }).map toString))) :=
  C6_confirm_party_mismatch W6 [] [] 1
    { id := 1, name := "PO1", customsNumber := "15  48  3009  0001234",
      partnerId := 5, pedimientoId := none, pickingIds := [], invoiceIds := [] }
    { id := 10, name := "LC10", customsNumber := "15  48  3009  0001234",
      state := LCState.draft, pickingIds := [100], costLines := false }
    (by simp) rfl (by decide) rfl rfl rfl (by decide) (by decide)

end Pedimiento
